import Mathlib

/-!
Verification development for the image mirroring and optimization pipeline
(object-storage gateway `src/lib/storage/cos.ts`, image optimizer module,
batch script `scripts/optimizeCosImages.ts`, and the legacy optimization
script).  TypeScript/JavaScript code is shallowly embedded: buffers are byte
lists, every network interaction is an explicit `Effect` recorded in a trace,
and the behaviour of the network / object-storage provider / sharp image
library is an explicit oracle parameter, so all embedded operations are total
executable functions.
-/

/-! ## JS string primitives

Character-list implementations of the JavaScript string operations used by
the source (`startsWith`, `includes`, `split`, `toLowerCase`, first-occurrence
`replace`, and regex search for a fixed-length character-class run). -/

/-- Predicate `startsWithL p s` is true iff `p` is a leading segment of `s`
(JS `s.startsWith(p)` with `s`, `p` as char lists). -/
def startsWithL : List Char → List Char → Bool
  | [], _ => true
  | _ :: _, [] => false
  | a :: as, b :: bs => a = b && startsWithL as bs

/-- JS `s.startsWith(p)`. -/
def jsStartsWith (s p : String) : Bool :=
  startsWithL p.toList s.toList

/-- Predicate `containsL n h` is true iff `n` occurs contiguously inside `h`. -/
def containsL (n : List Char) : List Char → Bool
  | [] => startsWithL n []
  | c :: t => startsWithL n (c :: t) || containsL n t

/-- JS `s.includes(sub)`. -/
def jsIncludes (s sub : String) : Bool :=
  containsL sub.toList s.toList

/-- JS `s.split(sep)` for a single-character separator, on char lists.
`splitOnC '.' "a.b"` gives `["a","b"]`; splitting the empty string gives
`[""]`, as in JS. -/
def splitOnC (sep : Char) : List Char → List (List Char)
  | [] => [[]]
  | c :: t =>
      let r := splitOnC sep t
      if c = sep then [] :: r
      else
        match r with
        | [] => [[c]]
        | y :: ys => (c :: y) :: ys

/-- JS `s.toLowerCase()` restricted to the ASCII range the source deals in. -/
def jsToLower (s : List Char) : String :=
  String.mk (s.map Char.toLower)

/-- JS `s.replace(pat, rep)` with a plain-string pattern: replaces only the
first occurrence. -/
def jsReplaceFirst (s pat rep : String) : String :=
  match s.splitOn pat with
  | [] => s
  | x :: rest =>
      if rest.isEmpty then s
      else x ++ rep ++ String.intercalate pat rest

/-- Predicate `startRun p n l` holds iff the first `n` characters of `l` exist and all
satisfy `p`. -/
def startRun (p : Char → Bool) : Nat → List Char → Bool
  | 0, _ => true
  | _ + 1, [] => false
  | n + 1, c :: t => p c && startRun p n t

/-- Predicate `hasRun p n l` holds iff `l` contains `n` consecutive characters
satisfying `p` — the semantics of testing the regex `/X{n}/` (character
class `X`, no anchors) against the string `l`. -/
def hasRun (p : Char → Bool) (n : Nat) : List Char → Bool
  | [] => startRun p n []
  | c :: t => startRun p n (c :: t) || hasRun p n t

/-- Character class `[a-f0-9]` (lowercase hexadecimal digit). -/
def isHexLower (c : Char) : Bool :=
  ('a' ≤ c && c ≤ 'f') || ('0' ≤ c && c ≤ '9')

/-- Character class `[a-f0-7]` — the class actually written in the legacy
script's `isHashedCosImage`, which omits the digits 8 and 9. -/
def isHexLower07 (c : Char) : Bool :=
  ('a' ≤ c && c ≤ 'f') || ('0' ≤ c && c ≤ '7')

/-- JS `a || b` on strings where `a` may be absent: `undefined` and `""` are
falsy, so both fall through to the default. -/
def jsOrStr (a : Option String) (b : String) : String :=
  match a with
  | none => b
  | some s => if s = "" then b else s

/-! ## URL model

Model of the WHATWG `new URL(...)` parser as used by the source, for
`http(s)`-style URLs: parsing succeeds exactly when the string carries an
explicit `http://` or `https://` scheme (otherwise the constructor throws);
`hostname` is the authority up to the first `/`, `pathname` the rest
including its leading `/` (a URL with no path parses to pathname `"/"`).
Ports, userinfo, and query/fragment splitting are not modelled; none of the
URLs handled by this pipeline carry them. -/

structure UrlParts where
  hostname : String
  pathname : String
  deriving Repr, DecidableEq

/-- Model of `new URL(url)`: `none` models the constructor throwing. -/
def parseUrl (url : String) : Option UrlParts :=
  let afterScheme : Option (List Char) :=
    if jsStartsWith url "https://" then some (url.toList.drop 8)
    else if jsStartsWith url "http://" then some (url.toList.drop 7)
    else none
  match afterScheme with
  | none => none
  | some rest =>
      match splitOnC '/' rest with
      | [] => some ⟨"", "/"⟩
      | h :: t =>
          some ⟨String.mk h,
                if t.isEmpty then "/"
                else "/" ++ String.intercalate "/" (t.map String.mk)⟩

/-! ## Buffers, effects, and the environment oracle -/

/-- A byte buffer (Node `Buffer`): a list of bytes. -/
abbrev Buffer := List Nat

/-- The reference-update kinds used by both batch scripts. -/
inductive UpdateType where
  | icon
  | image
  | icon_property
  deriving Repr, DecidableEq

/-- One observable network call.  Every embedded operation returns, next to
its result, the list of effects it issued, in order. -/
inductive Effect where
  | getObject (bucket region key : String)
  | fetchUrl (url : String)
  | putObject (bucket region key : String) (body : Buffer) (contentType : String)
  | deleteObject (bucket region key : String)
  | notionUpdate (pageId : String) (ty : UpdateType) (newUrl : String)
  | notionQuery (databaseId : Option String)
  deriving Repr, DecidableEq

/-- Whether an effect is a content-system reference update. -/
def Effect.isUpdate : Effect → Bool
  | .notionUpdate _ _ _ => true
  | _ => false

/-- Outcome of a JS `fetch` call: the call may throw, return a non-OK
response, or return OK with a body and an optional `content-type` header. -/
inductive FetchResult where
  | threw
  | notOk
  | ok (body : Buffer) (contentType : Option String)
  deriving Repr, DecidableEq

deriving instance DecidableEq for Except

/-- Oracle fixing the behaviour of the outside world (HTTP, the object
storage provider, the content system) for one run.  Each field gives, for the
arguments of a call, its outcome; `Except.error` models a rejected promise,
and for `getObject` the SDK error callback. -/
structure Net where
  fetchHttp : String → FetchResult
  getObject : String → String → String → Option Buffer
  putObject : String → String → String → Buffer → String → Except String Unit
  deleteObject : String → String → String → Except String Unit
  notionUpdate : String → UpdateType → String → Except String Unit
  notionQuery : Option String → Except String Unit

/-- Image metadata as reported by `sharp(buffer).metadata()`; every field may
be absent, as in the library. -/
structure Metadata where
  format : Option String
  width : Option Nat
  height : Option Nat
  deriving Repr, DecidableEq

/-- Which encoder branch the optimizer configures before `toBuffer()`. -/
inductive EncBranch where
  | png
  | jpeg
  | webp
  | passthrough
  deriving Repr, DecidableEq

/-- Oracle for the sharp image library: `metadata` models
`sharp(b).metadata()` (`none` = the library throws on undecodable input) and
`encode` models the `resize(maxSize, maxSize, {fit: inside,
withoutEnlargement})` pipeline followed by the selected encoder and
`toBuffer()` (`none` = `toBuffer` throws). -/
structure SharpModel where
  metadata : Buffer → Option Metadata
  encode : Buffer → Nat → Nat → EncBranch → Option Buffer

/-- The encoder branch selected by the optimizer source for a decoded
format. -/
def encBranch (format : Option String) : EncBranch :=
  if format = some "png" then .png
  else if format = some "jpeg" ∨ format = some "jpg" then .jpeg
  else if format = some "webp" then .webp
  else .passthrough

/-! ## Object storage gateway — embedding of `src/lib/storage/cos.ts` -/

namespace Cos

/-- Structure `StorageConfig` from `cos.ts` (credentials dropped — they never influence
control flow in the embedded operations). -/
structure Storage where
  bucket : String
  region : String
  publicUrlCfg : Option String
  deriving Repr, DecidableEq

/-- The constructor's `config.publicUrl || https-default` resolution. -/
def Storage.publicUrl (s : Storage) : String :=
  jsOrStr s.publicUrlCfg
    ("https://" ++ s.bucket ++ ".cos." ++ s.region ++ ".myqcloud.com")

/-- Embedding of `COSStorage.parseCosUrl`: `new URL(url)`, then bucket = `parts[0]` and
region = `parts[2]` of the dot-split hostname (a JS out-of-range index yields
`undefined`, modelled as `""`), key = pathname without its leading slash. -/
def parseCosUrl (url : String) : Option (String × String × String) :=
  match parseUrl url with
  | none => none
  | some u =>
      let parts := (splitOnC '.' u.hostname.toList).map String.mk
      let bucketName := parts.getD 0 ""
      let regionName := parts.getD 2 ""
      let key := String.mk (u.pathname.toList.drop 1)
      some (bucketName, regionName, key)

/-- Embedding of `COSStorage.getContentType`: extension of the last dot-segment, lower
cased, looked up in a fixed table with an octet-stream fallback. -/
def getContentType (path : String) : String :=
  let ext := jsToLower ((splitOnC '.' path.toList).getLastD [])
  if ext = "jpg" then "image/jpeg"
  else if ext = "jpeg" then "image/jpeg"
  else if ext = "png" then "image/png"
  else if ext = "gif" then "image/gif"
  else if ext = "webp" then "image/webp"
  else if ext = "svg" then "image/svg+xml"
  else if ext = "pdf" then "application/pdf"
  else "application/octet-stream"

/-- Embedding of `COSStorage.getExtension`: content type to extension, `.jpg` fallback. -/
def getExtension (contentType : String) : String :=
  if contentType = "image/jpeg" then ".jpg"
  else if contentType = "image/png" then ".png"
  else if contentType = "image/gif" then ".gif"
  else if contentType = "image/webp" then ".webp"
  else if contentType = "image/svg+xml" then ".svg"
  else if contentType = "application/pdf" then ".pdf"
  else ".jpg"

/-- Structure `DownloadResult` from `cos.ts`. -/
structure DownloadResult where
  buffer : Buffer
  contentType : String
  size : Nat
  deriving Repr, DecidableEq

/-- Embedding of `COSStorage.download`.  A URL containing `.myqcloud.com` goes through
`parseCosUrl` and the storage API (`getObject` resolves `null` on provider
error, never rejects); any other URL is prefixed with `https://` when it does
not start with `http` and fetched; the surrounding `try/catch` turns every
thrown error into `null`.  The `getObject(key, bucket, region)` helper
substitutes the gateway's own bucket/region for a falsy parsed value. -/
def download (cfg : Storage) (net : Net) (url : String) :
    Option DownloadResult × List Effect :=
  if jsIncludes url ".myqcloud.com" then
    match parseCosUrl url with
    | none => (none, [])
    | some (b, r, k) =>
        let b' := jsOrStr (some b) cfg.bucket
        let r' := jsOrStr (some r) cfg.region
        match net.getObject b' r' k with
        | none => (none, [.getObject b' r' k])
        | some data =>
            (some ⟨data, getContentType k, data.length⟩, [.getObject b' r' k])
  else
    let finalUrl := if jsStartsWith url "http" then url else "https://" ++ url
    match net.fetchHttp finalUrl with
    | .threw => (none, [.fetchUrl finalUrl])
    | .notOk => (none, [.fetchUrl finalUrl])
    | .ok body ct =>
        (some ⟨body, jsOrStr ct "image/jpeg", body.length⟩, [.fetchUrl finalUrl])

/-- Structure `UploadResult` from `cos.ts`. -/
structure UploadResult where
  url : String
  key : String
  size : Nat
  hash : String
  deriving Repr, DecidableEq

/-- Embedding of `COSStorage.upload`.  `sha` abstracts `crypto.createHash("sha256")
.update(buffer).digest("hex")` — a pure function of the exact bytes.  The key
is `<path>/<hash><extension>`; a rejected `putObject` promise propagates as a
thrown error (`Except.error`). -/
def upload (cfg : Storage) (net : Net) (sha : Buffer → String)
    (buffer : Buffer) (path : String) (contentType : Option String) :
    Except String UploadResult × List Effect :=
  let hash := sha buffer
  let extension := getExtension (jsOrStr contentType (getContentType path))
  let key := path ++ "/" ++ hash ++ extension
  let resolvedContentType := jsOrStr contentType (getContentType key)
  match net.putObject cfg.bucket cfg.region key buffer resolvedContentType with
  | .error e => (.error e, [.putObject cfg.bucket cfg.region key buffer resolvedContentType])
  | .ok _ =>
      (.ok ⟨cfg.publicUrl ++ "/" ++ key, key, buffer.length, hash⟩,
       [.putObject cfg.bucket cfg.region key buffer resolvedContentType])

/-- Embedding of `COSStorage.uploadOptimizedImage`: key `notion-images/<hash><ext>` with
the extension and content type derived from the format name. -/
def uploadOptimizedImage (cfg : Storage) (net : Net) (sha : Buffer → String)
    (buffer : Buffer) (format : String) :
    Except String UploadResult × List Effect :=
  let extension := if format = "svg" then ".svg" else "." ++ format
  let hash := sha buffer
  let key := "notion-images/" ++ hash ++ extension
  let contentType := "image/" ++ (if format = "svg" then "svg+xml" else format)
  match net.putObject cfg.bucket cfg.region key buffer contentType with
  | .error e => (.error e, [.putObject cfg.bucket cfg.region key buffer contentType])
  | .ok _ =>
      (.ok ⟨cfg.publicUrl ++ "/" ++ key, key, buffer.length, hash⟩,
       [.putObject cfg.bucket cfg.region key buffer contentType])

/-- Embedding of `COSStorage.delete`: no-op `false` when the URL fails to parse or does
not start with the gateway's public base; otherwise one `deleteObject` call
whose rejection is swallowed into `false` by the surrounding catch. -/
def del (cfg : Storage) (net : Net) (url : String) : Bool × List Effect :=
  match parseCosUrl url with
  | none => (false, [])
  | some _ =>
      if jsStartsWith url cfg.publicUrl then
        let key := jsReplaceFirst url (cfg.publicUrl ++ "/") ""
        match net.deleteObject cfg.bucket cfg.region key with
        | .error _ => (false, [.deleteObject cfg.bucket cfg.region key])
        | .ok _ => (true, [.deleteObject cfg.bucket cfg.region key])
      else (false, [])

/-- Embedding of `COSStorage.isOurBucket`. -/
def isOurBucket (cfg : Storage) (url : String) : Bool :=
  jsStartsWith url cfg.publicUrl || jsIncludes url ".myqcloud.com"

/-- Embedding of `COSStorage.isOptimizedImage`: public base followed by the
`notion-images/` namespace, and the regex `/[a-f0-9]{64}/` tested against the
whole URL. -/
def isOptimizedImage (cfg : Storage) (url : String) : Bool :=
  jsStartsWith url (cfg.publicUrl ++ "/notion-images/") &&
    hasRun isHexLower 64 url.toList

end Cos

/-! ## Sharp resize semantics

Model of sharp's `resize(M, M, {fit: "inside", withoutEnlargement: true})`,
from the library's documented behaviour: the image is scaled by the largest
factor `s ≤ 1` with `s·w ≤ M` and `s·h ≤ M` (so `s = min(1, M / max(w,h))`),
each output dimension is the input dimension times `s` rounded to the nearest
integer, and never below one pixel. -/

/-- Round `a / b` to the nearest natural number (`b = 0` gives `0`). -/
def rnd (a b : Nat) : Nat := (2 * a + b) / (2 * b)

/-- Output dimensions of sharp's fit-inside, without-enlargement resize:
scale factor `min(1, M / max(w,h))` applied to both dimensions, rounded to
nearest, floored at one pixel. -/
def sharpFitInside (M w h : Nat) : Nat × Nat :=
  (max 1 (rnd (w * min M (max w h)) (max w h)),
   max 1 (rnd (h * min M (max w h)) (max w h)))

/-- A sharp oracle is dimension-faithful when the metadata of every encoded
output carries exactly the fit-inside dimensions of its input. -/
def SharpFaithful (sharp : SharpModel) : Prop :=
  ∀ b M q fb w h md out,
    sharp.metadata b = some md → md.width = some w → md.height = some h →
    sharp.encode b M q fb = some out →
    ∃ md2, sharp.metadata out = some md2 ∧
      md2.width = some (sharpFitInside M w h).1 ∧
      md2.height = some (sharpFitInside M w h).2

/-! ## Image optimizer module — embedding of the `optimizeImage` /
`processImage` source file -/

namespace Optimize

/-- Structure `OptimizedImage` from the optimizer module; `savings` is kept as an exact
rational. -/
structure OptimizedImage where
  buffer : Buffer
  format : String
  contentType : String
  width : Nat
  height : Nat
  originalSize : Nat
  optimizedSize : Nat
  savings : ℚ
  deriving Repr, DecidableEq

/-- Embedding of `optimizeImage(buffer, {maxSize, quality})`.  The resize pipeline is set
up first; an input whose decoded format is `svg` returns early with the input
buffer untouched and zero savings; every other format is encoded through the
selected branch and re-measured.  `none` models a thrown error (undecodable
input or a failing `toBuffer`). -/
def optimizeImage (sharp : SharpModel) (buffer : Buffer)
    (maxSize : Nat := 80) (quality : Nat := 90) : Option OptimizedImage :=
  match sharp.metadata buffer with
  | none => none
  | some metadata =>
      if metadata.format = some "svg" then
        some { buffer := buffer
               format := "svg"
               contentType := "image/svg+xml"
               width := metadata.width.getD 0
               height := metadata.height.getD 0
               originalSize := buffer.length
               optimizedSize := buffer.length
               savings := 0 }
      else
        match sharp.encode buffer maxSize quality (encBranch metadata.format) with
        | none => none
        | some optimizedBuffer =>
            match sharp.metadata optimizedBuffer with
            | none => none
            | some optimizedMetadata =>
                let format := metadata.format.getD "png"
                some { buffer := optimizedBuffer
                       format := format
                       contentType := "image/" ++ format
                       width := optimizedMetadata.width.getD 0
                       height := optimizedMetadata.height.getD 0
                       originalSize := buffer.length
                       optimizedSize := optimizedBuffer.length
                       savings :=
                         if buffer.length > 0 then
                           (1 - (optimizedBuffer.length : ℚ) / (buffer.length : ℚ)) * 100
                         else 0 }

/-- Embedding of `isNotionImage` from the optimizer module. -/
def isNotionImage (url : Option String) : Bool :=
  match url with
  | none => false
  | some u =>
      jsIncludes u "amazonaws.com" || jsIncludes u "notion-static.com" ||
        jsIncludes u "www.notion.so/image"

/-- Structure `ImageProcessResult` from the optimizer module (stats omitted where the
claims do not inspect them). -/
structure ImageProcessResult where
  success : Bool
  originalUrl : String
  optimizedUrl : Option String
  error : Option String
  deriving Repr, DecidableEq

/-- Embedding of `processImage(imageUrl, options)`: download, *then* check
`isOptimizedImage`, then optimize, upload, and delete the old object when it
lives in the gateway's bucket.  Thrown errors anywhere in the body are caught
and reported as a failed result. -/
def processImage (cfg : Cos.Storage) (net : Net) (sharp : SharpModel)
    (sha : Buffer → String) (imageUrl : String)
    (maxSize : Nat := 80) (quality : Nat := 90) :
    ImageProcessResult × List Effect :=
  match Cos.download cfg net imageUrl with
  | (none, t1) =>
      (⟨false, imageUrl, none, some "Failed to download image"⟩, t1)
  | (some downloaded, t1) =>
      if Cos.isOptimizedImage cfg imageUrl then
        (⟨true, imageUrl, some imageUrl, some "Already optimized"⟩, t1)
      else
        match optimizeImage sharp downloaded.buffer maxSize quality with
        | none => (⟨false, imageUrl, none, some "optimize threw"⟩, t1)
        | some optimized =>
            match Cos.uploadOptimizedImage cfg net sha optimized.buffer optimized.format with
            | (.error e, t2) => (⟨false, imageUrl, none, some e⟩, t1 ++ t2)
            | (.ok uploadResult, t2) =>
                if Cos.isOurBucket cfg imageUrl then
                  let (_, t3) := Cos.del cfg net imageUrl
                  (⟨true, imageUrl, some uploadResult.url, none⟩, t1 ++ t2 ++ t3)
                else
                  (⟨true, imageUrl, some uploadResult.url, none⟩, t1 ++ t2)

end Optimize

/-! ## Batch script — embedding of `scripts/optimizeCosImages.ts` -/

namespace Script

/-- Embedding of `processSingleImage`: download via the gateway (a `null` result skips),
optimize (a throw is caught by the surrounding handler), upload, update the
content-system reference, then best-effort delete of an own-bucket original.
The `Bool` result is the function's return value; the single `try/catch`
turns any thrown step into `false`. -/
def processSingleImage (cfg : Cos.Storage) (net : Net) (sharp : SharpModel)
    (sha : Buffer → String) (url pageId : String) (updateType : UpdateType) :
    Bool × List Effect :=
  match Cos.download cfg net url with
  | (none, t1) => (false, t1)
  | (some downloaded, t1) =>
      match Optimize.optimizeImage sharp downloaded.buffer 80 90 with
      | none => (false, t1)
      | some optimized =>
          match Cos.uploadOptimizedImage cfg net sha optimized.buffer optimized.format with
          | (.error _, t2) => (false, t1 ++ t2)
          | (.ok uploadResult, t2) =>
              match net.notionUpdate pageId updateType uploadResult.url with
              | .error _ =>
                  (false, t1 ++ t2 ++ [.notionUpdate pageId updateType uploadResult.url])
              | .ok _ =>
                  if Cos.isOurBucket cfg url then
                    let (_, t3) := Cos.del cfg net url
                    (true, t1 ++ t2 ++ [.notionUpdate pageId updateType uploadResult.url] ++ t3)
                  else
                    (true, t1 ++ t2 ++ [.notionUpdate pageId updateType uploadResult.url])

/-- Per-target outcome inside `processDatabase`'s loop. -/
inductive TargetOutcome where
  | skippedOptimized
  | skippedIrrelevant
  | processed (ok : Bool)
  deriving Repr, DecidableEq

/-- The body of `processDatabase`'s per-target loop for one (non-undefined)
URL: skip when already optimized, skip when neither own-bucket nor a Notion
image, otherwise run `processSingleImage`. -/
def processTarget (cfg : Cos.Storage) (net : Net) (sharp : SharpModel)
    (sha : Buffer → String) (url pageId : String) (ty : UpdateType) :
    TargetOutcome × List Effect :=
  if Cos.isOptimizedImage cfg url then (.skippedOptimized, [])
  else if Cos.isOurBucket cfg url || Optimize.isNotionImage (some url) then
    let (ok, t) := processSingleImage cfg net sharp sha url pageId ty
    (.processed ok, t)
  else (.skippedIrrelevant, [])

/-- An image target extracted from a Notion page (`getImageTargets` output);
target extraction from the raw page object is modelled as already done. -/
structure ImageTarget where
  url : Option String
  ty : UpdateType
  deriving Repr, DecidableEq

/-- A content-system page, reduced to what the loops read. -/
structure Page where
  pageId : String
  targets : List ImageTarget
  deriving Repr, DecidableEq

/-- The per-page part of `processDatabase`: iterate the page's targets,
skipping absent URLs. -/
def processPage (cfg : Cos.Storage) (net : Net) (sharp : SharpModel)
    (sha : Buffer → String) (page : Page) : List Effect :=
  page.targets.foldl
    (fun acc tgt =>
      match tgt.url with
      | none => acc
      | some u => acc ++ (processTarget cfg net sharp sha u page.pageId tgt.ty).2)
    []

/-- Embedding of `processDatabase(databaseId, ...)`: a falsy (`undefined` or empty)
identifier returns immediately with no query; otherwise one query whose
rejection propagates (first component `false`), then the page loop.  The
pages produced by a successful query are supplied by the `pages` argument. -/
def processDatabase (cfg : Cos.Storage) (net : Net) (sharp : SharpModel)
    (sha : Buffer → String) (databaseId : Option String) (pages : List Page) :
    Bool × List Effect :=
  if jsOrStr databaseId "" = "" then (true, [])
  else
    match net.notionQuery databaseId with
    | .error _ => (false, [.notionQuery databaseId])
    | .ok _ =>
        (true, .notionQuery databaseId ::
          pages.foldl (fun acc p => acc ++ processPage cfg net sharp sha p) [])

/-- The database-processing sequence of the script's `main`: the three
collections are awaited in order, and a thrown (unguarded) failure aborts the
remainder of the run. -/
def scriptsMain (cfg : Cos.Storage) (net : Net) (sharp : SharpModel)
    (sha : Buffer → String) (gwId stackId musicId : Option String)
    (gwPages stackPages musicPages : List Page) : List Effect :=
  let (ok1, t1) := processDatabase cfg net sharp sha gwId gwPages
  if !ok1 then t1
  else
    let (ok2, t2) := processDatabase cfg net sharp sha stackId stackPages
    if !ok2 then t1 ++ t2
    else
      let (_, t3) := processDatabase cfg net sharp sha musicId musicPages
      t1 ++ t2 ++ t3

end Script

/-! ## Legacy optimization script — embedding of the standalone
`optimize-cos-images` script (the `unnamed/part_004` source file) -/

namespace Legacy

/-- The script's environment globals: `COS_BUCKET`, `COS_REGION`, and the raw
`COS_PUBLIC_URL` value before the top-level normalisation. -/
structure Env where
  bucket : String
  region : String
  cosPublicUrlEnv : String
  deriving Repr, DecidableEq

/-- The top-level `COS_PUBLIC_URL` normalisation: a truthy value not
starting with `http` gets an `https://` prefix. -/
def Env.publicUrl (e : Env) : String :=
  if e.cosPublicUrlEnv ≠ "" && !jsStartsWith e.cosPublicUrlEnv "http" then
    "https://" ++ e.cosPublicUrlEnv
  else e.cosPublicUrlEnv

/-- The `bucketName` local of `downloadImage`: `parts[0]` of the dot-split
hostname. -/
def bucketName (u : UrlParts) : String :=
  ((splitOnC '.' u.hostname.toList).map String.mk).getD 0 ""

/-- The `regionName` local of `downloadImage`: `parts[2]` of the dot-split
hostname (`""` models a JS `undefined` out-of-range index). -/
def regionName (u : UrlParts) : String :=
  ((splitOnC '.' u.hostname.toList).map String.mk).getD 2 ""

/-- The `key` local of `downloadImage`: the pathname without its leading
slash. -/
def keyName (u : UrlParts) : String :=
  String.mk (u.pathname.toList.drop 1)

/-- Embedding of `downloadImage`: prefixes `https://` first, then branches on
`.myqcloud.com`.  In the storage branch the `getObject` promise is *returned*
from inside the `try`, so its rejection escapes the local catch and
propagates to the caller (`Except.error`); a `new URL` throw and all `fetch`
failures are caught locally and become `null` (`Except.ok none`). -/
def downloadImage (net : Net) (url : String) :
    Except String (Option Buffer) × List Effect :=
  let finalUrl := if jsStartsWith url "http" then url else "https://" ++ url
  if jsIncludes finalUrl ".myqcloud.com" then
    match parseUrl finalUrl with
    | none => (.ok none, [])
    | some u =>
        match net.getObject (bucketName u) (regionName u) (keyName u) with
        | none =>
            (.error "getObject rejected",
             [.getObject (bucketName u) (regionName u) (keyName u)])
        | some data =>
            (.ok (some data),
             [.getObject (bucketName u) (regionName u) (keyName u)])
  else
    match net.fetchHttp finalUrl with
    | .threw => (.ok none, [.fetchUrl finalUrl])
    | .notOk => (.ok none, [.fetchUrl finalUrl])
    | .ok body _ => (.ok (some body), [.fetchUrl finalUrl])

/-- The legacy `optimizeImage`'s result: buffer and format name. -/
structure Optimized where
  buffer : Buffer
  format : String
  deriving Repr, DecidableEq

/-- Embedding of `optimizeImage` (legacy script): the `MAX_SIZE = 80`, quality-90 resize
pipeline; an `svg` input returns unchanged before `toBuffer`; any thrown
error is caught into `null` (statistics accumulation is not modelled). -/
def optimizeImage (sharp : SharpModel) (buffer : Buffer) : Option Optimized :=
  match sharp.metadata buffer with
  | none => none
  | some metadata =>
      if metadata.format = some "svg" then some ⟨buffer, "svg"⟩
      else
        match sharp.encode buffer 80 90 (encBranch metadata.format) with
        | none => none
        | some optimizedBuffer => some ⟨optimizedBuffer, metadata.format.getD "png"⟩

/-- Embedding of `uploadToCOS`: key `notion-images/<hash><ext>`; the `putObject` promise
is returned from inside the `try`, so a rejection escapes the local catch and
propagates to the caller. -/
def uploadToCOS (env : Env) (net : Net) (sha : Buffer → String)
    (buffer : Buffer) (format : String) : Except String String × List Effect :=
  let hash := sha buffer
  let extension := if format = "svg" then ".svg" else "." ++ format
  let filename := "notion-images/" ++ hash ++ extension
  let contentType := "image/" ++ (if format = "svg" then "svg+xml" else format)
  match net.putObject env.bucket env.region filename buffer contentType with
  | .error e => (.error e, [.putObject env.bucket env.region filename buffer contentType])
  | .ok _ =>
      (.ok (env.publicUrl ++ "/" ++ filename),
       [.putObject env.bucket env.region filename buffer contentType])

/-- Embedding of `deleteFromCOS`: silently returns for a URL outside the public base; the
`deleteObject` promise is returned from inside the `try`, so a rejection
propagates to the caller. -/
def deleteFromCOS (env : Env) (net : Net) (url : String) :
    Except String Unit × List Effect :=
  if !jsStartsWith url env.publicUrl then (.ok (), [])
  else
    let key := jsReplaceFirst url (env.publicUrl ++ "/") ""
    match net.deleteObject env.bucket env.region key with
    | .error e => (.error e, [.deleteObject env.bucket env.region key])
    | .ok _ => (.ok (), [.deleteObject env.bucket env.region key])

/-- Embedding of `isCosImage`. -/
def isCosImage (env : Env) (url : Option String) : Bool :=
  match url with
  | none => false
  | some u => jsStartsWith u env.publicUrl || jsIncludes u ".myqcloud.com"

/-- Embedding of `isHashedCosImage`: public base followed by `notion-images/`, and the
regex `/[a-f0-7]{64}/` — note the character class as written in the source —
tested against the whole URL. -/
def isHashedCosImage (env : Env) (url : Option String) : Bool :=
  match url with
  | none => false
  | some u =>
      jsStartsWith u (env.publicUrl ++ "/notion-images/") &&
        hasRun isHexLower07 64 u.toList

/-- Embedding of `isNotionImage` (legacy script). -/
def isNotionImage (url : Option String) : Bool :=
  match url with
  | none => false
  | some u =>
      jsIncludes u "amazonaws.com" || jsIncludes u "notion-static.com" ||
        jsIncludes u "www.notion.so/image"

/-- Embedding of `optimizeSingleImage`: download (a rejection is caught by this
function's own `try/catch`), optimize, upload, skip when the new URL equals
the old one, update the content reference, then delete an own-storage
original.  Every propagated rejection ends in the catch block returning
`false`. -/
def optimizeSingleImage (env : Env) (net : Net) (sharp : SharpModel)
    (sha : Buffer → String) (imageUrl pageId : String) (updateType : UpdateType) :
    Bool × List Effect :=
  match downloadImage net imageUrl with
  | (.error _, t1) => (false, t1)
  | (.ok none, t1) => (false, t1)
  | (.ok (some originalBuffer), t1) =>
      match optimizeImage sharp originalBuffer with
      | none => (false, t1)
      | some optimized =>
          match uploadToCOS env net sha optimized.buffer optimized.format with
          | (.error _, t2) => (false, t1 ++ t2)
          | (.ok newUrl, t2) =>
              if newUrl = imageUrl then (false, t1 ++ t2)
              else
                match net.notionUpdate pageId updateType newUrl with
                | .error _ =>
                    (false, t1 ++ t2 ++ [.notionUpdate pageId updateType newUrl])
                | .ok _ =>
                    if isCosImage env (some imageUrl) then
                      match deleteFromCOS env net imageUrl with
                      | (.error _, t3) =>
                          (false, t1 ++ t2 ++ [.notionUpdate pageId updateType newUrl] ++ t3)
                      | (.ok _, t3) =>
                          (true, t1 ++ t2 ++ [.notionUpdate pageId updateType newUrl] ++ t3)
                    else (true, t1 ++ t2 ++ [.notionUpdate pageId updateType newUrl])

/-- A Good-Websites page, reduced to what its loop reads. -/
structure GwPage where
  pageId : String
  icon : Option String
  deriving Repr, DecidableEq

/-- The per-page body of `optimizeGoodWebsites`'s loop. -/
def gwStep (env : Env) (net : Net) (sharp : SharpModel) (sha : Buffer → String)
    (page : GwPage) : List Effect :=
  if isHashedCosImage env page.icon then []
  else if isCosImage env page.icon || isNotionImage page.icon then
    (optimizeSingleImage env net sharp sha (page.icon.getD "") page.pageId .icon).2
  else []

/-- Embedding of `optimizeGoodWebsites`: reads its database identifier with *no* guard and
queries immediately; a query rejection propagates (first component
`false`). -/
def optimizeGoodWebsites (env : Env) (net : Net) (sharp : SharpModel)
    (sha : Buffer → String) (databaseId : Option String) (pages : List GwPage) :
    Bool × List Effect :=
  match net.notionQuery databaseId with
  | .error _ => (false, [.notionQuery databaseId])
  | .ok _ =>
      (true, .notionQuery databaseId ::
        pages.foldl (fun acc p => acc ++ gwStep env net sharp sha p) [])

/-- A Stack page, reduced to what its loop reads. -/
structure StackPage where
  pageId : String
  icon : Option String
  image : Option String
  deriving Repr, DecidableEq

/-- The per-page body of `optimizeStack`'s loop: the icon target then the
image target. -/
def stackStep (env : Env) (net : Net) (sharp : SharpModel) (sha : Buffer → String)
    (page : StackPage) : List Effect :=
  (if isHashedCosImage env page.icon then []
   else if isCosImage env page.icon || isNotionImage page.icon then
     (optimizeSingleImage env net sharp sha (page.icon.getD "") page.pageId .icon).2
   else []) ++
  (if isHashedCosImage env page.image then []
   else if isCosImage env page.image || isNotionImage page.image then
     (optimizeSingleImage env net sharp sha (page.image.getD "") page.pageId .image).2
   else [])

/-- Embedding of `optimizeStack`: like `optimizeGoodWebsites`, no identifier guard. -/
def optimizeStack (env : Env) (net : Net) (sharp : SharpModel)
    (sha : Buffer → String) (databaseId : Option String) (pages : List StackPage) :
    Bool × List Effect :=
  match net.notionQuery databaseId with
  | .error _ => (false, [.notionQuery databaseId])
  | .ok _ =>
      (true, .notionQuery databaseId ::
        pages.foldl (fun acc p => acc ++ stackStep env net sharp sha p) [])

/-- A Music page, reduced to what its loop reads: the files-type `icon`
property URL and the page icon URL. -/
structure MusicPage where
  pageId : String
  iconUrl : Option String
  pageIcon : Option String
  deriving Repr, DecidableEq

/-- The per-page body of `optimizeMusic`'s loop. -/
def musicStep (env : Env) (net : Net) (sharp : SharpModel) (sha : Buffer → String)
    (page : MusicPage) : List Effect :=
  if isHashedCosImage env page.iconUrl then []
  else if isCosImage env page.iconUrl || isNotionImage page.iconUrl then
    (optimizeSingleImage env net sharp sha (page.iconUrl.getD "") page.pageId .icon_property).2
  else if isHashedCosImage env page.pageIcon then []
  else if isCosImage env page.pageIcon || isNotionImage page.pageIcon then
    (optimizeSingleImage env net sharp sha (page.pageIcon.getD "") page.pageId .icon).2
  else []

/-- Embedding of `optimizeMusic`: unlike the other two collection functions it guards the
identifier — a falsy value returns before querying. -/
def optimizeMusic (env : Env) (net : Net) (sharp : SharpModel)
    (sha : Buffer → String) (databaseId : Option String) (pages : List MusicPage) :
    Bool × List Effect :=
  if jsOrStr databaseId "" = "" then (true, [])
  else
    match net.notionQuery databaseId with
    | .error _ => (false, [.notionQuery databaseId])
    | .ok _ =>
        (true, .notionQuery databaseId ::
          pages.foldl (fun acc p => acc ++ musicStep env net sharp sha p) [])

/-- The collection sequence of the legacy script's `main`: the three
collection functions are awaited in order, and a propagated rejection ends
the run (the top-level `catch` only logs). -/
def legacyMain (env : Env) (net : Net) (sharp : SharpModel) (sha : Buffer → String)
    (gwId stackId musicId : Option String)
    (gwPages : List GwPage) (stackPages : List StackPage)
    (musicPages : List MusicPage) : List Effect :=
  let (ok1, t1) := optimizeGoodWebsites env net sharp sha gwId gwPages
  if !ok1 then t1
  else
    let (ok2, t2) := optimizeStack env net sharp sha stackId stackPages
    if !ok2 then t1 ++ t2
    else
      let (_, t3) := optimizeMusic env net sharp sha musicId musicPages
      t1 ++ t2 ++ t3

end Legacy


/-- Rounding an exact multiple: `rnd (w·m) m = w`. -/
theorem rnd_exact (w m : Nat) (hm : 0 < m) : rnd (w * m) m = w := by
  unfold rnd
  have h1 : 2 * (w * m) + m = m * (2 * w + 1) := by ring
  have h2 : 2 * m = m * 2 := by ring
  rw [h1, h2, Nat.mul_div_mul_left _ _ hm]
  omega

/-- The clamped rounded dimension times the scaling denominator is within one
denominator (one pixel's worth) of the exact numerator. -/
theorem rnd_clamped_approx (a m : Nat) (hm : 0 < m) :
    max 1 (rnd a m) * m ≤ a + m ∧ a ≤ max 1 (rnd a m) * m + m := by
  have hdm : 0 < 2 * m := by omega
  have hdiv := Nat.div_add_mod (2 * a + m) (2 * m)
  have hmod := Nat.mod_lt (2 * a + m) hdm
  unfold rnd
  generalize hr : (2 * a + m) % (2 * m) = r at hdiv hmod
  generalize hq : (2 * a + m) / (2 * m) = q at hdiv ⊢
  rcases Nat.eq_zero_or_pos q with h0 | hpos
  · subst h0
    have e0 : max 1 0 = 1 := rfl
    rw [e0, one_mul]
    have e1 : 2 * m * 0 = 0 := by ring
    rw [e1] at hdiv
    omega
  · have hmax : max 1 q = q := by omega
    rw [hmax]
    have e1 : 2 * m * q = 2 * (q * m) := by ring
    rw [e1] at hdiv
    generalize q * m = u at hdiv ⊢
    omega

/-- The clamped rounded scale never exceeds the target bound when the source
dimension is at most the scaling denominator. -/
theorem rnd_clamped_le (w m M : Nat) (hm : 0 < m) (hM : 0 < M) (hw : w ≤ m) :
    max 1 (rnd (w * M) m) ≤ M := by
  have hdm : 0 < 2 * m := by omega
  have hdivle : (2 * (w * M) + m) / (2 * m) ≤ M := by
    have hlt : 2 * (w * M) + m < (M + 1) * (2 * m) := by
      nlinarith [Nat.mul_le_mul_right M hw]
    have hdl := (Nat.div_lt_iff_lt_mul hdm).mpr hlt
    omega
  unfold rnd
  generalize hq : (2 * (w * M) + m) / (2 * m) = q at hdivle ⊢
  omega

/-- No upscaling: when both dimensions already fit inside the bound, the
fit-inside resize is the identity. -/
theorem sharpFitInside_id (M w h : Nat) (hw : 0 < w) (hh : 0 < h)
    (h1 : w ≤ M) (h2 : h ≤ M) : sharpFitInside M w h = (w, h) := by
  unfold sharpFitInside
  have hm : 0 < max w h := by omega
  have ht : min M (max w h) = max w h := by omega
  rw [ht, rnd_exact w (max w h) hm, rnd_exact h (max w h) hm]
  have e1 : max 1 w = w := by omega
  have e2 : max 1 h = h := by omega
  rw [e1, e2]

/-- The fit-inside resize never exceeds a positive bound. -/
theorem sharpFitInside_le (M w h : Nat) (hM : 0 < M) (hw : 0 < w) (hh : 0 < h) :
    (sharpFitInside M w h).1 ≤ M ∧ (sharpFitInside M w h).2 ≤ M := by
  unfold sharpFitInside
  have hm : 0 < max w h := by omega
  rcases le_or_lt (max w h) M with hle | hgt
  · have ht : min M (max w h) = max w h := by omega
    rw [ht, rnd_exact w (max w h) hm, rnd_exact h (max w h) hm]
    constructor
    · simp only []
      omega
    · simp only []
      omega
  · have ht : min M (max w h) = M := by omega
    rw [ht]
    exact ⟨rnd_clamped_le w (max w h) M hm hM (le_max_left w h),
           rnd_clamped_le h (max w h) M hm hM (le_max_right w h)⟩

/-- Aspect preservation within one pixel: in the downscaling case each output
dimension times the scaling denominator is within one denominator of the
exact proportional value `dim · M`. -/
theorem sharpFitInside_aspect (M w h : Nat) (hgt : M < max w h) :
    (sharpFitInside M w h).1 * max w h ≤ w * M + max w h ∧
    w * M ≤ (sharpFitInside M w h).1 * max w h + max w h ∧
    (sharpFitInside M w h).2 * max w h ≤ h * M + max w h ∧
    h * M ≤ (sharpFitInside M w h).2 * max w h + max w h := by
  unfold sharpFitInside
  have hm : 0 < max w h := by omega
  have ht : min M (max w h) = M := by omega
  rw [ht]
  have h1 := rnd_clamped_approx (w * M) (max w h) hm
  have h2 := rnd_clamped_approx (h * M) (max w h) hm
  exact ⟨h1.1, h1.2, h2.1, h2.2⟩

/-! ## Concrete oracles used to instantiate hypotheses -/

/-- A concrete dimension-faithful sharp oracle: a buffer's first two bytes
are its width and height (defaulting to 1), a third byte equal to 1 marks an
SVG, and encoding produces a two-byte buffer holding the fit-inside
dimensions. -/
def witnessSharp : SharpModel where
  metadata b :=
    some ⟨some (if b.getD 2 0 = 1 then "svg" else "png"),
          some (b.getD 0 1), some (b.getD 1 1)⟩
  encode b M _ _ :=
    some [(sharpFitInside M (b.getD 0 1) (b.getD 1 1)).1,
          (sharpFitInside M (b.getD 0 1) (b.getD 1 1)).2]

theorem witnessSharp_faithful : SharpFaithful witnessSharp := by
  intro b M q fb w h md out hmd hw hh henc
  simp only [witnessSharp] at hmd henc
  injection hmd with hmd'
  subst hmd'
  simp only at hw hh
  injection hw with hw'
  injection hh with hh'
  subst hw'
  subst hh'
  injection henc with henc'
  subst henc'
  refine ⟨_, rfl, ?_, ?_⟩
  · simp [List.getD]
  · simp [List.getD]

/-- Gateway configuration used by concrete instantiations. -/
def cfgW : Cos.Storage := ⟨"b-125", "ap-test", none⟩

/-- Legacy script environment used by concrete instantiations. -/
def envW : Legacy.Env := ⟨"b-125", "ap-test", "b-125.cos.ap-test.myqcloud.com"⟩

/-- A stand-in content hash for concrete instantiations (any pure function
of the bytes). -/
def shaW : Buffer → String := fun b => "cafe" ++ toString b.length

/-- An oracle where every call succeeds. -/
def netOk : Net where
  fetchHttp _ := .ok [9, 9] none
  getObject _ _ _ := some [7, 7]
  putObject _ _ _ _ _ := .ok ()
  deleteObject _ _ _ := .ok ()
  notionUpdate _ _ _ := .ok ()
  notionQuery _ := .ok ()

/-- An oracle where only the content-reference update rejects. -/
def netUpdateFails : Net :=
  { netOk with notionUpdate := fun _ _ _ => .error "update rejected" }

/-- An oracle where queries with a missing identifier reject, as the content
API does for an invalid `database_id`. -/
def netQueryStrict : Net :=
  { netOk with notionQuery := fun id =>
      match id with
      | none => .error "body failed validation"
      | some _ => .ok () }

/-! ## C1 — content-addressed, deterministic upload -/

theorem upload_ok_shape (cfg : Cos.Storage) (net : Net) (sha : Buffer → String)
    (buffer : Buffer) (path : String) (contentType : Option String)
    (r : Cos.UploadResult)
    (hr : (Cos.upload cfg net sha buffer path contentType).1 = .ok r) :
    r = ⟨cfg.publicUrl ++ "/" ++
           (path ++ "/" ++ sha buffer ++
             Cos.getExtension (jsOrStr contentType (Cos.getContentType path))),
         path ++ "/" ++ sha buffer ++
           Cos.getExtension (jsOrStr contentType (Cos.getContentType path)),
         buffer.length, sha buffer⟩ := by
  simp only [Cos.upload] at hr
  split at hr
  · exact absurd hr (by simp)
  · simp only [Prod.fst] at hr
    injection hr with hr'
    exact hr'.symm

theorem uploadOptimizedImage_ok_shape (cfg : Cos.Storage) (net : Net)
    (sha : Buffer → String) (buffer : Buffer) (format : String)
    (s : Cos.UploadResult)
    (hs : (Cos.uploadOptimizedImage cfg net sha buffer format).1 = .ok s) :
    s = ⟨cfg.publicUrl ++ "/" ++
           ("notion-images/" ++ sha buffer ++
             (if format = "svg" then ".svg" else "." ++ format)),
         "notion-images/" ++ sha buffer ++
           (if format = "svg" then ".svg" else "." ++ format),
         buffer.length, sha buffer⟩ := by
  simp only [Cos.uploadOptimizedImage] at hs
  split at hs
  · exact absurd hs (by simp)
  · simp only [Prod.fst] at hs
    injection hs with hs'
    exact hs'.symm

/-- Claim C1: upload is content-addressed and deterministic — for every byte
buffer and namespace the stored key is `<namespace>/<hash><extension>` and
the public URL is `<public-base>/<key>`, for both `upload` and
`uploadOptimizedImage`; re-uploading identical bytes (even under a different
network oracle, i.e. from a different source) yields an identical key and
identical public URL. -/
theorem upload_content_addressed
    (cfg : Cos.Storage) (net net2 : Net) (sha : Buffer → String)
    (buffer : Buffer) (path : String) (contentType : Option String)
    (format : String) (r r2 s s2 : Cos.UploadResult)
    (hr : (Cos.upload cfg net sha buffer path contentType).1 = .ok r)
    (hr2 : (Cos.upload cfg net2 sha buffer path contentType).1 = .ok r2)
    (hs : (Cos.uploadOptimizedImage cfg net sha buffer format).1 = .ok s)
    (hs2 : (Cos.uploadOptimizedImage cfg net2 sha buffer format).1 = .ok s2) :
    r.key = path ++ "/" ++ sha buffer ++
      Cos.getExtension (jsOrStr contentType (Cos.getContentType path)) ∧
    r.url = cfg.publicUrl ++ "/" ++ r.key ∧
    s.key = "notion-images/" ++ sha buffer ++
      (if format = "svg" then ".svg" else "." ++ format) ∧
    s.url = cfg.publicUrl ++ "/" ++ s.key ∧
    r2 = r ∧ s2 = s := by
  have e1 := upload_ok_shape cfg net sha buffer path contentType r hr
  have e2 := upload_ok_shape cfg net2 sha buffer path contentType r2 hr2
  have e3 := uploadOptimizedImage_ok_shape cfg net sha buffer format s hs
  have e4 := uploadOptimizedImage_ok_shape cfg net2 sha buffer format s2 hs2
  subst e1
  subst e2
  subst e3
  subst e4
  exact ⟨rfl, rfl, rfl, rfl, rfl, rfl⟩

/-- Witness for C1 at a concrete buffer, namespace and oracle pair. -/
theorem upload_content_addressed_witness :
    (Cos.upload cfgW netOk shaW [1, 2] "notion-images" none).1 =
      .ok ⟨"https://b-125.cos.ap-test.myqcloud.com/notion-images/cafe2.jpg",
           "notion-images/cafe2.jpg", 2, "cafe2"⟩ ∧
    (Cos.uploadOptimizedImage cfgW netOk shaW [1, 2] "png").1 =
      .ok ⟨"https://b-125.cos.ap-test.myqcloud.com/notion-images/cafe2.png",
           "notion-images/cafe2.png", 2, "cafe2"⟩ ∧
    "notion-images/cafe2.jpg" =
      "notion-images" ++ "/" ++ shaW [1, 2] ++
        Cos.getExtension (jsOrStr none (Cos.getContentType "notion-images")) := by
  have h1 : (Cos.upload cfgW netOk shaW [1, 2] "notion-images" none).1 =
      .ok ⟨"https://b-125.cos.ap-test.myqcloud.com/notion-images/cafe2.jpg",
           "notion-images/cafe2.jpg", 2, "cafe2"⟩ := by decide
  have h2 : (Cos.uploadOptimizedImage cfgW netOk shaW [1, 2] "png").1 =
      .ok ⟨"https://b-125.cos.ap-test.myqcloud.com/notion-images/cafe2.png",
           "notion-images/cafe2.png", 2, "cafe2"⟩ := by decide
  refine ⟨h1, h2, ?_⟩
  exact (upload_content_addressed cfgW netOk netOk shaW [1, 2] "notion-images"
    none "png"
    ⟨"https://b-125.cos.ap-test.myqcloud.com/notion-images/cafe2.jpg",
     "notion-images/cafe2.jpg", 2, "cafe2"⟩
    ⟨"https://b-125.cos.ap-test.myqcloud.com/notion-images/cafe2.jpg",
     "notion-images/cafe2.jpg", 2, "cafe2"⟩
    ⟨"https://b-125.cos.ap-test.myqcloud.com/notion-images/cafe2.png",
     "notion-images/cafe2.png", 2, "cafe2"⟩
    ⟨"https://b-125.cos.ap-test.myqcloud.com/notion-images/cafe2.png",
     "notion-images/cafe2.png", 2, "cafe2"⟩
    h1 h1 h2 h2).1

/-! ## C10 — already-optimized implies own-bucket -/

theorem startsWithL_append_left (p q s : List Char)
    (h : startsWithL (p ++ q) s = true) : startsWithL p s = true := by
  induction p generalizing s with
  | nil => rfl
  | cons a as ih =>
      cases s with
      | nil => simp [startsWithL] at h
      | cons b bs =>
          simp only [List.cons_append, startsWithL, Bool.and_eq_true,
            decide_eq_true_eq] at h ⊢
          exact ⟨h.1, ih bs h.2⟩

theorem strToList_append (s t : String) : (s ++ t).toList = s.toList ++ t.toList := rfl

theorem jsStartsWith_of_append (u a b : String)
    (h : jsStartsWith u (a ++ b) = true) : jsStartsWith u a = true := by
  unfold jsStartsWith at h ⊢
  rw [strToList_append] at h
  exact startsWithL_append_left a.toList b.toList u.toList h

/-- Claim C10: for every URL, the already-optimized classification implies
the own-bucket classification — in the gateway (`isOptimizedImage` implies
`isOurBucket`) and in the legacy script (`isHashedCosImage` implies
`isCosImage`). -/
theorem optimized_implies_own_bucket (cfg : Cos.Storage) (env : Legacy.Env)
    (url : String) (u : Option String) :
    (Cos.isOptimizedImage cfg url = true → Cos.isOurBucket cfg url = true) ∧
    (Legacy.isHashedCosImage env u = true → Legacy.isCosImage env u = true) := by
  constructor
  · intro h
    unfold Cos.isOptimizedImage at h
    rw [Bool.and_eq_true] at h
    have hpre := jsStartsWith_of_append url cfg.publicUrl "/notion-images/" h.1
    unfold Cos.isOurBucket
    rw [hpre, Bool.true_or]
  · intro h
    cases u with
    | none => simp [Legacy.isHashedCosImage] at h
    | some v =>
        unfold Legacy.isHashedCosImage at h
        rw [Bool.and_eq_true] at h
        have hpre := jsStartsWith_of_append v env.publicUrl "/notion-images/" h.1
        simp [Legacy.isCosImage, hpre]

/-- Witness for C10 at a concrete optimized URL in both classifiers. -/
theorem optimized_implies_own_bucket_witness :
    Cos.isOurBucket cfgW
      ("https://b-125.cos.ap-test.myqcloud.com/notion-images/aaaaaaaaaaaaaaaaaaaaaaaaaaaaaaaaaaaaaaaaaaaaaaaaaaaaaaaaaaaaaaaa.png") = true ∧
    Legacy.isCosImage envW
      (some "https://b-125.cos.ap-test.myqcloud.com/notion-images/aaaaaaaaaaaaaaaaaaaaaaaaaaaaaaaaaaaaaaaaaaaaaaaaaaaaaaaaaaaaaaaa.png") = true := by
  have h := optimized_implies_own_bucket cfgW envW
    "https://b-125.cos.ap-test.myqcloud.com/notion-images/aaaaaaaaaaaaaaaaaaaaaaaaaaaaaaaaaaaaaaaaaaaaaaaaaaaaaaaaaaaaaaaa.png"
    (some "https://b-125.cos.ap-test.myqcloud.com/notion-images/aaaaaaaaaaaaaaaaaaaaaaaaaaaaaaaaaaaaaaaaaaaaaaaaaaaaaaaaaaaaaaaa.png")
  exact ⟨h.1 (by decide), h.2 (by decide)⟩

/-! ## C3 — the already-optimized classification and the `[a-f0-7]` slip -/

/-- The SHA-256 hex digest of the ASCII string `test` — a genuine content
hash whose digits include `8` and `9`. -/
def testHash : String :=
  "9f86d081884c7d659a2feaa0c55ad015a3bf4f1b2b0b822cd15d6c15b0f00a08"

/-- Claim C3, evaluated at the failing input: a genuine optimized-namespace
URL whose 64-hex-character hash contains the digits 8 and 9 is accepted by
the gateway's `isOptimizedImage` (regex class `[a-f0-9]`) but rejected by the
legacy script's `isHashedCosImage`, whose class `[a-f0-7]` omits those
digits — so the legacy classifier violates the claimed
64-hex-character-SHA-256 criterion. -/
theorem hashedCosImage_rejects_valid_hash :
    Legacy.Env.publicUrl envW = "https://b-125.cos.ap-test.myqcloud.com" ∧
    Cos.isOptimizedImage cfgW
      ("https://b-125.cos.ap-test.myqcloud.com/notion-images/" ++ testHash ++ ".png") = true ∧
    Legacy.isHashedCosImage envW
      (some ("https://b-125.cos.ap-test.myqcloud.com/notion-images/" ++ testHash ++ ".png")) = false := by
  refine ⟨by decide, by decide, by decide⟩

/-! ## C4 — vector passthrough -/

/-- Claim C4: a buffer whose decoded format is SVG passes through both
optimizers byte-identical, with `optimizedSize` equal to `originalSize` and
zero savings; no encode step runs. -/
theorem svg_passthrough (sharp : SharpModel) (b : Buffer) (M q : Nat)
    (md : Metadata) (hmd : sharp.metadata b = some md)
    (hfmt : md.format = some "svg") :
    Optimize.optimizeImage sharp b M q =
      some ⟨b, "svg", "image/svg+xml", md.width.getD 0, md.height.getD 0,
            b.length, b.length, 0⟩ ∧
    Legacy.optimizeImage sharp b = some ⟨b, "svg"⟩ := by
  constructor
  · simp [Optimize.optimizeImage, hmd, hfmt]
  · simp [Legacy.optimizeImage, hmd, hfmt]

/-- Witness for C4 at a concrete SVG-classified buffer. -/
theorem svg_passthrough_witness :
    Optimize.optimizeImage witnessSharp [10, 10, 1] 80 90 =
      some ⟨[10, 10, 1], "svg", "image/svg+xml", 10, 10, 3, 3, 0⟩ ∧
    Legacy.optimizeImage witnessSharp [10, 10, 1] = some ⟨[10, 10, 1], "svg"⟩ :=
  svg_passthrough witnessSharp [10, 10, 1] 80 90
    ⟨some "svg", some 10, some 10⟩ (by decide) rfl

/-! ## C6 — own-bucket deletion gating -/

/-- Claim C6: deleting a URL whose prefix is not the gateway's public base
returns `false` with no delete API call, and a provider error during
deletion is swallowed into a `false` return. -/
theorem delete_own_bucket_gating (cfg : Cos.Storage) (net : Net) (url : String) :
    (jsStartsWith url cfg.publicUrl = false → Cos.del cfg net url = (false, [])) ∧
    (∀ e, net.deleteObject cfg.bucket cfg.region
        (jsReplaceFirst url (cfg.publicUrl ++ "/") "") = .error e →
      (Cos.del cfg net url).1 = false) := by
  constructor
  · intro hfalse
    unfold Cos.del
    cases hp : Cos.parseCosUrl url with
    | none => rfl
    | some p => simp [hfalse]
  · intro e he
    unfold Cos.del
    cases hp : Cos.parseCosUrl url with
    | none => rfl
    | some p =>
        by_cases hs : jsStartsWith url cfg.publicUrl = true
        · simp [hs, he]
        · simp [hs]

/-- Witness for C6: a foreign URL is refused with no call, and a rejected
provider delete on an own URL yields `false`. -/
theorem delete_own_bucket_gating_witness :
    Cos.del cfgW netOk "https://other.example.com/x.png" = (false, []) ∧
    (Cos.del cfgW
      { netOk with deleteObject := fun _ _ _ => .error "denied" }
      "https://b-125.cos.ap-test.myqcloud.com/notion-images/x.png").1 = false := by
  constructor
  · exact (delete_own_bucket_gating cfgW netOk "https://other.example.com/x.png").1
      (by decide)
  · exact (delete_own_bucket_gating cfgW
      { netOk with deleteObject := fun _ _ _ => .error "denied" }
      "https://b-125.cos.ap-test.myqcloud.com/notion-images/x.png").2 "denied" rfl

/-! ## C7 — download total failure handling -/

/-- Claim C7: `download` never throws — the embedding is a total function
whose failures are all mapped to `null`: a store-native URL that fails to
parse returns `null` with no call; a store-native URL is fetched through the
storage API with the bucket, region and key parsed from the URL (a provider
error yielding `null`); any other URL is fetched over HTTP with an
`https://` prefix added when the scheme is missing, and both a thrown fetch
and a non-OK response yield `null`. -/
theorem download_contract (cfg : Cos.Storage) (net : Net) (url : String) :
    (jsIncludes url ".myqcloud.com" = true → Cos.parseCosUrl url = none →
      Cos.download cfg net url = (none, [])) ∧
    (∀ b r k, jsIncludes url ".myqcloud.com" = true →
      Cos.parseCosUrl url = some (b, r, k) →
      (Cos.download cfg net url).2 =
        [.getObject (jsOrStr (some b) cfg.bucket) (jsOrStr (some r) cfg.region) k] ∧
      (net.getObject (jsOrStr (some b) cfg.bucket) (jsOrStr (some r) cfg.region) k = none →
        (Cos.download cfg net url).1 = none)) ∧
    (jsIncludes url ".myqcloud.com" = false → jsStartsWith url "http" = false →
      (Cos.download cfg net url).2 = [.fetchUrl ("https://" ++ url)]) ∧
    (jsIncludes url ".myqcloud.com" = false →
      (net.fetchHttp (if jsStartsWith url "http" then url else "https://" ++ url) = .threw ∨
       net.fetchHttp (if jsStartsWith url "http" then url else "https://" ++ url) = .notOk) →
      (Cos.download cfg net url).1 = none) := by
  refine ⟨?_, ?_, ?_, ?_⟩
  · intro hinc hp
    simp [Cos.download, hinc, hp]
  · intro b r k hinc hp
    constructor
    · cases hg : net.getObject (jsOrStr (some b) cfg.bucket) (jsOrStr (some r) cfg.region) k with
      | none => simp [Cos.download, hinc, hp, hg]
      | some data => simp [Cos.download, hinc, hp, hg]
    · intro hg
      simp [Cos.download, hinc, hp, hg]
  · intro hinc hpre
    cases hf : net.fetchHttp ("https://" ++ url) with
    | threw => simp [Cos.download, hinc, hpre, hf]
    | notOk => simp [Cos.download, hinc, hpre, hf]
    | ok body ct => simp [Cos.download, hinc, hpre, hf]
  · intro hinc hfail
    by_cases hpre : jsStartsWith url "http" = true
    · rw [if_pos hpre] at hfail
      rcases hfail with hf | hf
      · simp [Cos.download, hinc, hpre, hf]
      · simp [Cos.download, hinc, hpre, hf]
    · rw [if_neg hpre] at hfail
      simp only [Bool.not_eq_true] at hpre
      rcases hfail with hf | hf
      · simp [Cos.download, hinc, hpre, hf]
      · simp [Cos.download, hinc, hpre, hf]

/-- Witness for C7: a schemeless foreign URL is fetched with an `https://`
prefix, and a non-OK response yields `null`; a store-native URL is fetched
through the storage API with the parsed coordinates. -/
theorem download_contract_witness :
    (Cos.download cfgW { netOk with fetchHttp := fun _ => .notOk }
      "example.com/pic.png").1 = none ∧
    (Cos.download cfgW { netOk with fetchHttp := fun _ => .notOk }
      "example.com/pic.png").2 = [.fetchUrl "https://example.com/pic.png"] ∧
    (Cos.download cfgW netOk
      "https://b-125.cos.ap-test.myqcloud.com/notion-images/a.png").2 =
      [.getObject "b-125" "ap-test" "notion-images/a.png"] := by
  have h1 := download_contract cfgW { netOk with fetchHttp := fun _ => .notOk }
    "example.com/pic.png"
  have h2 := download_contract cfgW netOk
    "https://b-125.cos.ap-test.myqcloud.com/notion-images/a.png"
  refine ⟨h1.2.2.2 (by decide) ?_, h1.2.2.1 (by decide) (by decide), ?_⟩
  · right
    rfl
  · exact (h2.2.1 "b-125" "ap-test" "notion-images/a.png" (by decide) (by decide)).1

/-! ## C5 — no upscaling, bounded dimensions, aspect preservation -/

/-- Claim C5: under a dimension-faithful sharp oracle, `optimizeImage` never
upscales — when both input dimensions are at most `maxSize` the output
dimensions equal the input's exactly — and otherwise both output dimensions
stay at most `maxSize` while each stays within one pixel's worth of the
exact aspect-preserving scale `dim · maxSize / max(w,h)`. -/
theorem optimizeImage_never_upscales
    (sharp : SharpModel) (hfaith : SharpFaithful sharp)
    (b : Buffer) (M q : Nat) (hM : 0 < M)
    (md : Metadata) (w h : Nat)
    (hmd : sharp.metadata b = some md)
    (hw : md.width = some w) (hh : md.height = some h)
    (hw0 : 0 < w) (hh0 : 0 < h)
    (hfmt : md.format ≠ some "svg")
    (r : Optimize.OptimizedImage)
    (hr : Optimize.optimizeImage sharp b M q = some r) :
    (w ≤ M → h ≤ M → r.width = w ∧ r.height = h) ∧
    (r.width ≤ M ∧ r.height ≤ M) ∧
    (M < max w h →
      r.width * max w h ≤ w * M + max w h ∧
      w * M ≤ r.width * max w h + max w h ∧
      r.height * max w h ≤ h * M + max w h ∧
      h * M ≤ r.height * max w h + max w h) := by
  unfold Optimize.optimizeImage at hr
  rw [hmd] at hr
  simp only [if_neg hfmt] at hr
  split at hr
  · exact absurd hr (by simp)
  · rename_i ob henc
    split at hr
    · exact absurd hr (by simp)
    · rename_i md2x hmeta
      obtain ⟨md2, hmd2, hw2, hh2⟩ :=
        hfaith b M q (encBranch md.format) w h md ob hmd hw hh henc
      rw [hmeta] at hmd2
      injection hmd2 with he
      subst he
      injection hr with hr'
      have hwidth : r.width = (sharpFitInside M w h).1 := by
        rw [← hr']
        simp [hw2]
      have hheight : r.height = (sharpFitInside M w h).2 := by
        rw [← hr']
        simp [hh2]
      refine ⟨?_, ?_, ?_⟩
      · intro h1 h2
        have hid := sharpFitInside_id M w h hw0 hh0 h1 h2
        rw [hwidth, hheight, hid]
        exact ⟨rfl, rfl⟩
      · have hle := sharpFitInside_le M w h hM hw0 hh0
        rw [hwidth, hheight]
        exact hle
      · intro hgt
        have ha := sharpFitInside_aspect M w h hgt
        rw [hwidth, hheight]
        exact ha

/-- Witness for C5 at a 100×50 input and an 80-pixel bound: the output is
80×40 and within the bound. -/
theorem optimizeImage_never_upscales_witness :
    (Optimize.optimizeImage witnessSharp [100, 50] 80 90).map
      (fun r => (r.width, r.height)) = some (80, 40) ∧ (40 : Nat) ≤ 80 := by
  have hmap : (Optimize.optimizeImage witnessSharp [100, 50] 80 90).map
      (fun r => (r.width, r.height)) = some (80, 40) := by decide
  refine ⟨hmap, ?_⟩
  cases hopt : Optimize.optimizeImage witnessSharp [100, 50] 80 90 with
  | none => rw [hopt] at hmap; exact absurd hmap (by simp)
  | some r =>
      have hb := (optimizeImage_never_upscales witnessSharp witnessSharp_faithful
        [100, 50] 80 90 (by decide) ⟨some "png", some 100, some 50⟩ 100 50
        (by decide) rfl rfl (by decide) (by decide) (by decide) r hopt).2.1
      rw [hopt] at hmap
      injection hmap with h1
      have hh' : r.height = 40 := congrArg Prod.snd h1
      rw [← hh']
      exact hb.2

/-! ## Trace shape helpers -/

/-- Whether an effect is a download-side call (storage read or HTTP fetch). -/
def Effect.isDownload : Effect → Bool
  | .getObject _ _ _ => true
  | .fetchUrl _ => true
  | _ => false

theorem cos_download_effects (cfg : Cos.Storage) (net : Net) (url : String) :
    ∀ e ∈ (Cos.download cfg net url).2, e.isDownload = true := by
  intro e he
  by_cases hinc : jsIncludes url ".myqcloud.com" = true
  · cases hp : Cos.parseCosUrl url with
    | none => simp [Cos.download, hinc, hp] at he
    | some trip =>
        obtain ⟨b, r, k⟩ := trip
        cases hg : net.getObject (jsOrStr (some b) cfg.bucket)
            (jsOrStr (some r) cfg.region) k with
        | none =>
            simp [Cos.download, hinc, hp, hg] at he
            subst he
            rfl
        | some data =>
            simp [Cos.download, hinc, hp, hg] at he
            subst he
            rfl
  · by_cases hpre : jsStartsWith url "http" = true
    · cases hf : net.fetchHttp url with
      | threw => simp [Cos.download, hinc, hpre, hf] at he; subst he; rfl
      | notOk => simp [Cos.download, hinc, hpre, hf] at he; subst he; rfl
      | ok body ct => simp [Cos.download, hinc, hpre, hf] at he; subst he; rfl
    · cases hf : net.fetchHttp ("https://" ++ url) with
      | threw => simp [Cos.download, hinc, hpre, hf] at he; subst he; rfl
      | notOk => simp [Cos.download, hinc, hpre, hf] at he; subst he; rfl
      | ok body ct => simp [Cos.download, hinc, hpre, hf] at he; subst he; rfl

theorem cos_download_no_update (cfg : Cos.Storage) (net : Net) (url : String) :
    ∀ e ∈ (Cos.download cfg net url).2, e.isUpdate = false := by
  intro e he
  have h := cos_download_effects cfg net url e he
  cases e <;> first | rfl | simp [Effect.isDownload] at h

theorem cos_del_no_update (cfg : Cos.Storage) (net : Net) (url : String) :
    ∀ e ∈ (Cos.del cfg net url).2, e.isUpdate = false := by
  intro e he
  cases hp : Cos.parseCosUrl url with
  | none => simp [Cos.del, hp] at he
  | some p =>
      by_cases hs : jsStartsWith url cfg.publicUrl = true
      · cases hdel : net.deleteObject cfg.bucket cfg.region
            (jsReplaceFirst url (cfg.publicUrl ++ "/") "") with
        | error er => simp [Cos.del, hp, hs, hdel] at he; subst he; rfl
        | ok u => simp [Cos.del, hp, hs, hdel] at he; subst he; rfl
      · simp [Cos.del, hp, hs] at he

theorem uploadOptimizedImage_trace (cfg : Cos.Storage) (net : Net)
    (sha : Buffer → String) (b : Buffer) (fmt : String) :
    (Cos.uploadOptimizedImage cfg net sha b fmt).2 =
      [.putObject cfg.bucket cfg.region
        ("notion-images/" ++ sha b ++ (if fmt = "svg" then ".svg" else "." ++ fmt)) b
        ("image/" ++ (if fmt = "svg" then "svg+xml" else fmt))] := by
  cases hput : net.putObject cfg.bucket cfg.region
      ("notion-images/" ++ sha b ++ (if fmt = "svg" then ".svg" else "." ++ fmt)) b
      ("image/" ++ (if fmt = "svg" then "svg+xml" else fmt)) with
  | error e => simp [Cos.uploadOptimizedImage, hput]
  | ok u => simp [Cos.uploadOptimizedImage, hput]

theorem uploadOptimizedImage_ok_put (cfg : Cos.Storage) (net : Net)
    (sha : Buffer → String) (b : Buffer) (fmt : String) (s : Cos.UploadResult)
    (h : (Cos.uploadOptimizedImage cfg net sha b fmt).1 = .ok s) :
    net.putObject cfg.bucket cfg.region
      ("notion-images/" ++ sha b ++ (if fmt = "svg" then ".svg" else "." ++ fmt)) b
      ("image/" ++ (if fmt = "svg" then "svg+xml" else fmt)) = .ok () := by
  cases hput : net.putObject cfg.bucket cfg.region
      ("notion-images/" ++ sha b ++ (if fmt = "svg" then ".svg" else "." ++ fmt)) b
      ("image/" ++ (if fmt = "svg" then "svg+xml" else fmt)) with
  | error e => simp [Cos.uploadOptimizedImage, hput] at h
  | ok u => rfl

/-! ## C2 — already-optimized URLs across the workflow paths -/

/-- Claim C2 (amended): an already-optimized URL is skipped in every path
and never optimized, uploaded, reference-updated or deleted; the batch
loops (`processDatabase`'s per-target check and the legacy per-icon check)
issue zero network calls, while the `processImage` workflow issues its
download *before* the classification check — on a successful download it
returns the skip result with exactly the download's calls and nothing
else. -/
theorem alreadyOptimized_skip_paths (cfg : Cos.Storage) (env : Legacy.Env)
    (net : Net) (sharp : SharpModel) (sha : Buffer → String)
    (url pageId : String) (ty : UpdateType) (gw : Legacy.GwPage)
    (M q : Nat) :
    (Cos.isOptimizedImage cfg url = true →
      Script.processTarget cfg net sharp sha url pageId ty =
        (.skippedOptimized, [])) ∧
    (Legacy.isHashedCosImage env gw.icon = true →
      Legacy.gwStep env net sharp sha gw = []) ∧
    (Cos.isOptimizedImage cfg url = true →
      (∀ e ∈ (Optimize.processImage cfg net sharp sha url M q).2,
        e.isDownload = true) ∧
      (∀ d t1, Cos.download cfg net url = (some d, t1) →
        Optimize.processImage cfg net sharp sha url M q =
          (⟨true, url, some url, some "Already optimized"⟩, t1))) := by
  refine ⟨?_, ?_, ?_⟩
  · intro h
    unfold Script.processTarget
    rw [if_pos h]
  · intro h
    unfold Legacy.gwStep
    rw [if_pos h]
  · intro h
    constructor
    · intro e he
      rcases hdl : Cos.download cfg net url with ⟨res, t1⟩
      cases res with
      | none =>
          have ht : (Optimize.processImage cfg net sharp sha url M q).2 = t1 := by
            simp [Optimize.processImage, hdl]
          rw [ht] at he
          exact cos_download_effects cfg net url e (by rw [hdl]; exact he)
      | some d =>
          have ht : (Optimize.processImage cfg net sharp sha url M q).2 = t1 := by
            simp [Optimize.processImage, hdl, h]
          rw [ht] at he
          exact cos_download_effects cfg net url e (by rw [hdl]; exact he)
    · intro d t1 hdl
      simp [Optimize.processImage, hdl, h]

/-- Claim C2 as stated is refuted on the `processImage` path: at a concrete
already-optimized URL, `processImage` issues a storage download call — the
download happens before the classification check. -/
theorem processImage_downloads_before_check :
    Cos.isOptimizedImage cfgW
      ("https://b-125.cos.ap-test.myqcloud.com/notion-images/aaaaaaaaaaaaaaaaaaaaaaaaaaaaaaaaaaaaaaaaaaaaaaaaaaaaaaaaaaaaaaaa.png") = true ∧
    (Optimize.processImage cfgW netOk witnessSharp shaW
      "https://b-125.cos.ap-test.myqcloud.com/notion-images/aaaaaaaaaaaaaaaaaaaaaaaaaaaaaaaaaaaaaaaaaaaaaaaaaaaaaaaaaaaaaaaa.png"
      80 90).2 =
      [.getObject "b-125" "ap-test"
        "notion-images/aaaaaaaaaaaaaaaaaaaaaaaaaaaaaaaaaaaaaaaaaaaaaaaaaaaaaaaaaaaaaaaa.png"] := by
  exact ⟨by decide, by decide⟩

/-- Witness for the amended C2 at a concrete optimized URL: the batch target
loop is a zero-call skip, the legacy icon loop is a zero-call skip, and
`processImage` returns the skip result with exactly its one download call. -/
theorem alreadyOptimized_skip_paths_witness :
    Script.processTarget cfgW netOk witnessSharp shaW
      "https://b-125.cos.ap-test.myqcloud.com/notion-images/aaaaaaaaaaaaaaaaaaaaaaaaaaaaaaaaaaaaaaaaaaaaaaaaaaaaaaaaaaaaaaaa.png"
      "page1" .icon = (.skippedOptimized, []) ∧
    Legacy.gwStep envW netOk witnessSharp shaW
      ⟨"page1",
       some "https://b-125.cos.ap-test.myqcloud.com/notion-images/aaaaaaaaaaaaaaaaaaaaaaaaaaaaaaaaaaaaaaaaaaaaaaaaaaaaaaaaaaaaaaaa.png"⟩ = [] ∧
    Optimize.processImage cfgW netOk witnessSharp shaW
      "https://b-125.cos.ap-test.myqcloud.com/notion-images/aaaaaaaaaaaaaaaaaaaaaaaaaaaaaaaaaaaaaaaaaaaaaaaaaaaaaaaaaaaaaaaa.png"
      80 90 =
      (⟨true,
        "https://b-125.cos.ap-test.myqcloud.com/notion-images/aaaaaaaaaaaaaaaaaaaaaaaaaaaaaaaaaaaaaaaaaaaaaaaaaaaaaaaaaaaaaaaa.png",
        some "https://b-125.cos.ap-test.myqcloud.com/notion-images/aaaaaaaaaaaaaaaaaaaaaaaaaaaaaaaaaaaaaaaaaaaaaaaaaaaaaaaaaaaaaaaa.png",
        some "Already optimized"⟩,
       [.getObject "b-125" "ap-test"
         "notion-images/aaaaaaaaaaaaaaaaaaaaaaaaaaaaaaaaaaaaaaaaaaaaaaaaaaaaaaaaaaaaaaaa.png"]) := by
  have hskip := alreadyOptimized_skip_paths cfgW envW netOk witnessSharp shaW
    "https://b-125.cos.ap-test.myqcloud.com/notion-images/aaaaaaaaaaaaaaaaaaaaaaaaaaaaaaaaaaaaaaaaaaaaaaaaaaaaaaaaaaaaaaaa.png"
    "page1" .icon
    ⟨"page1",
     some "https://b-125.cos.ap-test.myqcloud.com/notion-images/aaaaaaaaaaaaaaaaaaaaaaaaaaaaaaaaaaaaaaaaaaaaaaaaaaaaaaaaaaaaaaaa.png"⟩
    80 90
  refine ⟨hskip.1 (by decide), hskip.2.1 (by decide), ?_⟩
  exact (hskip.2.2 (by decide)).2 ⟨[7, 7], "image/png", 2⟩
    [.getObject "b-125" "ap-test"
      "notion-images/aaaaaaaaaaaaaaaaaaaaaaaaaaaaaaaaaaaaaaaaaaaaaaaaaaaaaaaaaaaaaaaa.png"]
    (by decide)

/-! ## Legacy trace shape helpers -/

theorem legacy_download_effects (net : Net) (url : String) :
    ∀ e ∈ (Legacy.downloadImage net url).2, e.isDownload = true := by
  intro e he
  by_cases hpre : jsStartsWith url "http" = true
  · by_cases hinc : jsIncludes url ".myqcloud.com" = true
    · cases hp : parseUrl url with
      | none => simp [Legacy.downloadImage, hpre, hinc, hp] at he
      | some u =>
          cases hg : net.getObject (Legacy.bucketName u) (Legacy.regionName u)
              (Legacy.keyName u) with
          | none => simp [Legacy.downloadImage, hpre, hinc, hp, hg] at he; subst he; rfl
          | some d => simp [Legacy.downloadImage, hpre, hinc, hp, hg] at he; subst he; rfl
    · cases hf : net.fetchHttp url with
      | threw => simp [Legacy.downloadImage, hpre, hinc, hf] at he; subst he; rfl
      | notOk => simp [Legacy.downloadImage, hpre, hinc, hf] at he; subst he; rfl
      | ok body ct => simp [Legacy.downloadImage, hpre, hinc, hf] at he; subst he; rfl
  · by_cases hinc : jsIncludes ("https://" ++ url) ".myqcloud.com" = true
    · cases hp : parseUrl ("https://" ++ url) with
      | none => simp [Legacy.downloadImage, hpre, hinc, hp] at he
      | some u =>
          cases hg : net.getObject (Legacy.bucketName u) (Legacy.regionName u)
              (Legacy.keyName u) with
          | none => simp [Legacy.downloadImage, hpre, hinc, hp, hg] at he; subst he; rfl
          | some d => simp [Legacy.downloadImage, hpre, hinc, hp, hg] at he; subst he; rfl
    · cases hf : net.fetchHttp ("https://" ++ url) with
      | threw => simp [Legacy.downloadImage, hpre, hinc, hf] at he; subst he; rfl
      | notOk => simp [Legacy.downloadImage, hpre, hinc, hf] at he; subst he; rfl
      | ok body ct => simp [Legacy.downloadImage, hpre, hinc, hf] at he; subst he; rfl

theorem legacy_download_no_update (net : Net) (url : String) :
    ∀ e ∈ (Legacy.downloadImage net url).2, e.isUpdate = false := by
  intro e he
  have h := legacy_download_effects net url e he
  cases e <;> first | rfl | simp [Effect.isDownload] at h

theorem legacy_delete_no_update (env : Legacy.Env) (net : Net) (url : String) :
    ∀ e ∈ (Legacy.deleteFromCOS env net url).2, e.isUpdate = false := by
  intro e he
  by_cases hs : jsStartsWith url env.publicUrl = true
  · cases hdel : net.deleteObject env.bucket env.region
        (jsReplaceFirst url (env.publicUrl ++ "/") "") with
    | error er => simp [Legacy.deleteFromCOS, hs, hdel] at he; subst he; rfl
    | ok u => simp [Legacy.deleteFromCOS, hs, hdel] at he; subst he; rfl
  · simp [Legacy.deleteFromCOS, hs] at he

theorem uploadToCOS_trace (env : Legacy.Env) (net : Net)
    (sha : Buffer → String) (b : Buffer) (fmt : String) :
    (Legacy.uploadToCOS env net sha b fmt).2 =
      [.putObject env.bucket env.region
        ("notion-images/" ++ sha b ++ (if fmt = "svg" then ".svg" else "." ++ fmt)) b
        ("image/" ++ (if fmt = "svg" then "svg+xml" else fmt))] := by
  cases hput : net.putObject env.bucket env.region
      ("notion-images/" ++ sha b ++ (if fmt = "svg" then ".svg" else "." ++ fmt)) b
      ("image/" ++ (if fmt = "svg" then "svg+xml" else fmt)) with
  | error e => simp [Legacy.uploadToCOS, hput]
  | ok u => simp [Legacy.uploadToCOS, hput]

theorem uploadToCOS_ok_put (env : Legacy.Env) (net : Net)
    (sha : Buffer → String) (b : Buffer) (fmt : String) (newUrl : String)
    (h : (Legacy.uploadToCOS env net sha b fmt).1 = .ok newUrl) :
    net.putObject env.bucket env.region
      ("notion-images/" ++ sha b ++ (if fmt = "svg" then ".svg" else "." ++ fmt)) b
      ("image/" ++ (if fmt = "svg" then "svg+xml" else fmt)) = .ok () := by
  cases hput : net.putObject env.bucket env.region
      ("notion-images/" ++ sha b ++ (if fmt = "svg" then ".svg" else "." ++ fmt)) b
      ("image/" ++ (if fmt = "svg" then "svg+xml" else fmt)) with
  | error e => simp [Legacy.uploadToCOS, hput] at h
  | ok u => rfl

/-! ## C8 — reference update only after successful upload -/

/-- Every trace of the batch script's per-image worker either contains no
reference update at all, or decomposes as prefix calls with no update, then
a *successful* upload, then the update (with trailing cleanup); and if the
update call rejected, the worker reports failure. -/
theorem script_processSingle_shape (cfg : Cos.Storage) (net : Net)
    (sharp : SharpModel) (sha : Buffer → String) (url pageId : String)
    (ty : UpdateType) :
    (∀ e ∈ (Script.processSingleImage cfg net sharp sha url pageId ty).2,
      e.isUpdate = false) ∨
    (∃ t1 bk rg k body ct rest newUrl,
      (Script.processSingleImage cfg net sharp sha url pageId ty).2 =
        t1 ++ .putObject bk rg k body ct :: .notionUpdate pageId ty newUrl :: rest ∧
      net.putObject bk rg k body ct = .ok () ∧
      (∀ e ∈ t1, e.isUpdate = false) ∧
      (∀ e ∈ rest, e.isUpdate = false) ∧
      (net.notionUpdate pageId ty newUrl ≠ .ok () →
        (Script.processSingleImage cfg net sharp sha url pageId ty).1 = false)) := by
  rcases hdl : Cos.download cfg net url with ⟨res, t1⟩
  have ht1 : ∀ e ∈ t1, e.isUpdate = false := by
    intro e he
    exact cos_download_no_update cfg net url e (by rw [hdl]; exact he)
  cases res with
  | none =>
      left
      intro e he
      have heq : (Script.processSingleImage cfg net sharp sha url pageId ty).2 = t1 := by
        simp [Script.processSingleImage, hdl]
      rw [heq] at he
      exact ht1 e he
  | some d =>
      cases hopt : Optimize.optimizeImage sharp d.buffer 80 90 with
      | none =>
          left
          intro e he
          have heq : (Script.processSingleImage cfg net sharp sha url pageId ty).2 = t1 := by
            simp [Script.processSingleImage, hdl, hopt]
          rw [heq] at he
          exact ht1 e he
      | some o =>
          rcases hup : Cos.uploadOptimizedImage cfg net sha o.buffer o.format with ⟨upres, t2⟩
          have ht2 : t2 = [.putObject cfg.bucket cfg.region
              ("notion-images/" ++ sha o.buffer ++
                (if o.format = "svg" then ".svg" else "." ++ o.format)) o.buffer
              ("image/" ++ (if o.format = "svg" then "svg+xml" else o.format))] := by
            have h := uploadOptimizedImage_trace cfg net sha o.buffer o.format
            rw [hup] at h
            exact h
          cases upres with
          | error e2 =>
              left
              intro e he
              have heq : (Script.processSingleImage cfg net sharp sha url pageId ty).2 =
                  t1 ++ t2 := by
                simp [Script.processSingleImage, hdl, hopt, hup]
              rw [heq, ht2] at he
              rcases List.mem_append.mp he with h | h
              · exact ht1 e h
              · rw [List.mem_singleton] at h
                subst h
                rfl
          | ok s =>
              have hput := uploadOptimizedImage_ok_put cfg net sha o.buffer o.format s
                (by rw [hup])
              cases hnu : net.notionUpdate pageId ty s.url with
              | error e3 =>
                  right
                  refine ⟨t1, _, _, _, _, _, [], s.url, ?_, hput, ht1, by simp, ?_⟩
                  · have heq : (Script.processSingleImage cfg net sharp sha url pageId ty).2 =
                        t1 ++ t2 ++ [.notionUpdate pageId ty s.url] := by
                      simp [Script.processSingleImage, hdl, hopt, hup, hnu]
                    rw [heq, ht2]
                    simp
                  · intro _
                    simp [Script.processSingleImage, hdl, hopt, hup, hnu]
              | ok u =>
                  cases u
                  by_cases hbkt : Cos.isOurBucket cfg url = true
                  · rcases hdel : Cos.del cfg net url with ⟨dres, t3⟩
                    have ht3 : ∀ e ∈ t3, e.isUpdate = false := by
                      intro e he
                      exact cos_del_no_update cfg net url e (by rw [hdel]; exact he)
                    right
                    refine ⟨t1, _, _, _, _, _, t3, s.url, ?_, hput, ht1, ht3, ?_⟩
                    · have heq : (Script.processSingleImage cfg net sharp sha url pageId ty).2 =
                          t1 ++ t2 ++ [.notionUpdate pageId ty s.url] ++ t3 := by
                        simp [Script.processSingleImage, hdl, hopt, hup, hnu, hbkt, hdel]
                      rw [heq, ht2]
                      simp
                    · intro hne
                      exact absurd hnu hne
                  · right
                    refine ⟨t1, _, _, _, _, _, [], s.url, ?_, hput, ht1, by simp, ?_⟩
                    · have heq : (Script.processSingleImage cfg net sharp sha url pageId ty).2 =
                          t1 ++ t2 ++ [.notionUpdate pageId ty s.url] := by
                        simp [Script.processSingleImage, hdl, hopt, hup, hnu, hbkt]
                      rw [heq, ht2]
                      simp
                    · intro hne
                      exact absurd hnu hne

/-- Legacy-script analogue of the shape lemma: every `optimizeSingleImage`
trace either contains no reference update, or decomposes as update-free
prefix calls, a successful upload, then the update (with trailing cleanup);
a rejected update makes the function report failure. -/
theorem legacy_optimizeSingle_shape (env : Legacy.Env) (net : Net)
    (sharp : SharpModel) (sha : Buffer → String) (imageUrl pageId : String)
    (ty : UpdateType) :
    (∀ e ∈ (Legacy.optimizeSingleImage env net sharp sha imageUrl pageId ty).2,
      e.isUpdate = false) ∨
    (∃ t1 bk rg k body ct rest newUrl,
      (Legacy.optimizeSingleImage env net sharp sha imageUrl pageId ty).2 =
        t1 ++ .putObject bk rg k body ct :: .notionUpdate pageId ty newUrl :: rest ∧
      net.putObject bk rg k body ct = .ok () ∧
      (∀ e ∈ t1, e.isUpdate = false) ∧
      (∀ e ∈ rest, e.isUpdate = false) ∧
      (net.notionUpdate pageId ty newUrl ≠ .ok () →
        (Legacy.optimizeSingleImage env net sharp sha imageUrl pageId ty).1 = false)) := by
  rcases hdl : Legacy.downloadImage net imageUrl with ⟨res, t1⟩
  have ht1 : ∀ e ∈ t1, e.isUpdate = false := by
    intro e he
    exact legacy_download_no_update net imageUrl e (by rw [hdl]; exact he)
  cases res with
  | error err =>
      left
      intro e he
      have heq : (Legacy.optimizeSingleImage env net sharp sha imageUrl pageId ty).2 = t1 := by
        simp [Legacy.optimizeSingleImage, hdl]
      rw [heq] at he
      exact ht1 e he
  | ok mb =>
      cases mb with
      | none =>
          left
          intro e he
          have heq : (Legacy.optimizeSingleImage env net sharp sha imageUrl pageId ty).2 = t1 := by
            simp [Legacy.optimizeSingleImage, hdl]
          rw [heq] at he
          exact ht1 e he
      | some buf =>
          cases hopt : Legacy.optimizeImage sharp buf with
          | none =>
              left
              intro e he
              have heq : (Legacy.optimizeSingleImage env net sharp sha imageUrl pageId ty).2 =
                  t1 := by
                simp [Legacy.optimizeSingleImage, hdl, hopt]
              rw [heq] at he
              exact ht1 e he
          | some o =>
              rcases hup : Legacy.uploadToCOS env net sha o.buffer o.format with ⟨upres, t2⟩
              have ht2 : t2 = [.putObject env.bucket env.region
                  ("notion-images/" ++ sha o.buffer ++
                    (if o.format = "svg" then ".svg" else "." ++ o.format)) o.buffer
                  ("image/" ++ (if o.format = "svg" then "svg+xml" else o.format))] := by
                have h := uploadToCOS_trace env net sha o.buffer o.format
                rw [hup] at h
                exact h
              cases upres with
              | error e2 =>
                  left
                  intro e he
                  have heq : (Legacy.optimizeSingleImage env net sharp sha imageUrl pageId ty).2 =
                      t1 ++ t2 := by
                    simp [Legacy.optimizeSingleImage, hdl, hopt, hup]
                  rw [heq, ht2] at he
                  rcases List.mem_append.mp he with h | h
                  · exact ht1 e h
                  · rw [List.mem_singleton] at h
                    subst h
                    rfl
              | ok newUrl =>
                  have hput := uploadToCOS_ok_put env net sha o.buffer o.format newUrl
                    (by rw [hup])
                  by_cases hsame : newUrl = imageUrl
                  · left
                    intro e he
                    have heq : (Legacy.optimizeSingleImage env net sharp sha imageUrl pageId ty).2 =
                        t1 ++ t2 := by
                      simp [Legacy.optimizeSingleImage, hdl, hopt, hup, hsame]
                    rw [heq, ht2] at he
                    rcases List.mem_append.mp he with h | h
                    · exact ht1 e h
                    · rw [List.mem_singleton] at h
                      subst h
                      rfl
                  · cases hnu : net.notionUpdate pageId ty newUrl with
                    | error e3 =>
                        right
                        refine ⟨t1, _, _, _, _, _, [], newUrl, ?_, hput, ht1, by simp, ?_⟩
                        · have heq :
                              (Legacy.optimizeSingleImage env net sharp sha imageUrl pageId ty).2 =
                                t1 ++ t2 ++ [.notionUpdate pageId ty newUrl] := by
                            simp [Legacy.optimizeSingleImage, hdl, hopt, hup, hsame, hnu]
                          rw [heq, ht2]
                          simp
                        · intro _
                          simp [Legacy.optimizeSingleImage, hdl, hopt, hup, hsame, hnu]
                    | ok u =>
                        cases u
                        by_cases hcos : Legacy.isCosImage env (some imageUrl) = true
                        · rcases hdel : Legacy.deleteFromCOS env net imageUrl with ⟨dres, t3⟩
                          have ht3 : ∀ e ∈ t3, e.isUpdate = false := by
                            intro e he
                            exact legacy_delete_no_update env net imageUrl e
                              (by rw [hdel]; exact he)
                          right
                          refine ⟨t1, _, _, _, _, _, t3, newUrl, ?_, hput, ht1, ht3, ?_⟩
                          · have heq :
                                (Legacy.optimizeSingleImage env net sharp sha imageUrl pageId ty).2 =
                                  t1 ++ t2 ++ [.notionUpdate pageId ty newUrl] ++ t3 := by
                              cases dres with
                              | error e4 =>
                                  simp [Legacy.optimizeSingleImage, hdl, hopt, hup, hsame,
                                    hnu, hcos, hdel]
                              | ok u4 =>
                                  simp [Legacy.optimizeSingleImage, hdl, hopt, hup, hsame,
                                    hnu, hcos, hdel]
                            rw [heq, ht2]
                            simp
                          · intro hne
                            exact absurd hnu hne
                        · right
                          refine ⟨t1, _, _, _, _, _, [], newUrl, ?_, hput, ht1, by simp, ?_⟩
                          · have heq :
                                (Legacy.optimizeSingleImage env net sharp sha imageUrl pageId ty).2 =
                                  t1 ++ t2 ++ [.notionUpdate pageId ty newUrl] := by
                              simp [Legacy.optimizeSingleImage, hdl, hopt, hup, hsame, hnu, hcos]
                            rw [heq, ht2]
                            simp
                          · intro hne
                            exact absurd hnu hne

/-- A trace issues reference updates only after a successful upload: either
it has no update at all, or it splits at a `putObject` call that the
provider accepted, with nothing before it being an update. -/
def UpdatesOnlyAfterUpload (net : Net) (tr : List Effect) : Prop :=
  (∀ e ∈ tr, e.isUpdate = false) ∨
  ∃ tA tB bk rg k body ct,
    tr = tA ++ .putObject bk rg k body ct :: tB ∧
    net.putObject bk rg k body ct = .ok () ∧
    ∀ e ∈ tA, e.isUpdate = false

/-- Claim C8: in both per-image workers the content-reference update is
issued only after the upload of the optimized object succeeded — a failure
at or before the upload step produces a trace with no update call at all —
and when the update call itself rejects, the worker reports failure while
the successful upload remains in the trace (object uploaded but
unreferenced). -/
theorem reference_update_after_upload (cfg : Cos.Storage) (env : Legacy.Env)
    (net : Net) (sharp : SharpModel) (sha : Buffer → String)
    (url pageId : String) (ty : UpdateType) :
    UpdatesOnlyAfterUpload net
      (Script.processSingleImage cfg net sharp sha url pageId ty).2 ∧
    (∀ p t u, Effect.notionUpdate p t u ∈
        (Script.processSingleImage cfg net sharp sha url pageId ty).2 →
      net.notionUpdate p t u ≠ .ok () →
      (Script.processSingleImage cfg net sharp sha url pageId ty).1 = false) ∧
    UpdatesOnlyAfterUpload net
      (Legacy.optimizeSingleImage env net sharp sha url pageId ty).2 ∧
    (∀ p t u, Effect.notionUpdate p t u ∈
        (Legacy.optimizeSingleImage env net sharp sha url pageId ty).2 →
      net.notionUpdate p t u ≠ .ok () →
      (Legacy.optimizeSingleImage env net sharp sha url pageId ty).1 = false) := by
  refine ⟨?_, ?_, ?_, ?_⟩
  · rcases script_processSingle_shape cfg net sharp sha url pageId ty with
      hno | ⟨t1, bk, rg, k, body, ct, rest, nu, htr, hok, ht1, _, _⟩
    · exact Or.inl hno
    · exact Or.inr ⟨t1, .notionUpdate pageId ty nu :: rest, bk, rg, k, body, ct,
        htr, hok, ht1⟩
  · intro p t u hmem hne
    rcases script_processSingle_shape cfg net sharp sha url pageId ty with
      hno | ⟨t1, bk, rg, k, body, ct, rest, nu, htr, hok, ht1, hrest, hfail⟩
    · have hx := hno _ hmem
      simp [Effect.isUpdate] at hx
    · rw [htr] at hmem
      rcases List.mem_append.mp hmem with h | h
      · have hx := ht1 _ h
        simp [Effect.isUpdate] at hx
      · rcases List.mem_cons.mp h with h2 | h2
        · simp at h2
        · rcases List.mem_cons.mp h2 with h3 | h3
          · injection h3 with hp ht hu
            subst hp
            subst ht
            subst hu
            exact hfail hne
          · have hx := hrest _ h3
            simp [Effect.isUpdate] at hx
  · rcases legacy_optimizeSingle_shape env net sharp sha url pageId ty with
      hno | ⟨t1, bk, rg, k, body, ct, rest, nu, htr, hok, ht1, _, _⟩
    · exact Or.inl hno
    · exact Or.inr ⟨t1, .notionUpdate pageId ty nu :: rest, bk, rg, k, body, ct,
        htr, hok, ht1⟩
  · intro p t u hmem hne
    rcases legacy_optimizeSingle_shape env net sharp sha url pageId ty with
      hno | ⟨t1, bk, rg, k, body, ct, rest, nu, htr, hok, ht1, hrest, hfail⟩
    · have hx := hno _ hmem
      simp [Effect.isUpdate] at hx
    · rw [htr] at hmem
      rcases List.mem_append.mp hmem with h | h
      · have hx := ht1 _ h
        simp [Effect.isUpdate] at hx
      · rcases List.mem_cons.mp h with h2 | h2
        · simp at h2
        · rcases List.mem_cons.mp h2 with h3 | h3
          · injection h3 with hp ht hu
            subst hp
            subst ht
            subst hu
            exact hfail hne
          · have hx := hrest _ h3
            simp [Effect.isUpdate] at hx

/-- Witness for C8: with an oracle whose update call rejects, both workers
issue the update after the successful upload and report failure. -/
theorem reference_update_after_upload_witness :
    Effect.notionUpdate "p1" .icon
        "https://b-125.cos.ap-test.myqcloud.com/notion-images/cafe2.png" ∈
      (Script.processSingleImage cfgW netUpdateFails witnessSharp shaW
        "https://example.com/a.png" "p1" .icon).2 ∧
    (Script.processSingleImage cfgW netUpdateFails witnessSharp shaW
      "https://example.com/a.png" "p1" .icon).1 = false ∧
    (Legacy.optimizeSingleImage envW netUpdateFails witnessSharp shaW
      "https://example.com/a.png" "p1" .icon).1 = false := by
  have hmem : Effect.notionUpdate "p1" .icon
      "https://b-125.cos.ap-test.myqcloud.com/notion-images/cafe2.png" ∈
      (Script.processSingleImage cfgW netUpdateFails witnessSharp shaW
        "https://example.com/a.png" "p1" .icon).2 := by decide
  have hmem2 : Effect.notionUpdate "p1" .icon
      "https://b-125.cos.ap-test.myqcloud.com/notion-images/cafe2.png" ∈
      (Legacy.optimizeSingleImage envW netUpdateFails witnessSharp shaW
        "https://example.com/a.png" "p1" .icon).2 := by decide
  refine ⟨hmem, ?_, ?_⟩
  · exact (reference_update_after_upload cfgW envW netUpdateFails witnessSharp shaW
      "https://example.com/a.png" "p1" .icon).2.1 _ _ _ hmem (by decide)
  · exact (reference_update_after_upload cfgW envW netUpdateFails witnessSharp shaW
      "https://example.com/a.png" "p1" .icon).2.2.2 _ _ _ hmem2 (by decide)

/-! ## C9 — missing per-collection database identifiers -/

/-- Claim C9 (amended): a falsy (unset or empty) collection identifier is
skipped gracefully exactly where the source guards it — the batch script's
`processDatabase` returns immediately with no query and the rest of the run
proceeds unchanged, and the legacy `optimizeMusic` guards likewise — but the
legacy `optimizeGoodWebsites`/`optimizeStack` have no such guard (see the
accompanying counterexample). -/
theorem missing_database_id_handling (cfg : Cos.Storage) (env : Legacy.Env)
    (net : Net) (sharp : SharpModel) (sha : Buffer → String)
    (gwId stackId musicId : Option String)
    (gwPages stackPages musicPages : List Script.Page)
    (mpages : List Legacy.MusicPage)
    (hgw : jsOrStr gwId "" = "") :
    Script.processDatabase cfg net sharp sha gwId gwPages = (true, []) ∧
    Script.scriptsMain cfg net sharp sha gwId stackId musicId
        gwPages stackPages musicPages =
      (let p2 := Script.processDatabase cfg net sharp sha stackId stackPages
       let p3 := Script.processDatabase cfg net sharp sha musicId musicPages
       if p2.1 then p2.2 ++ p3.2 else p2.2) ∧
    (jsOrStr musicId "" = "" →
      Legacy.optimizeMusic env net sharp sha musicId mpages = (true, [])) := by
  have h1 : Script.processDatabase cfg net sharp sha gwId gwPages = (true, []) := by
    unfold Script.processDatabase
    rw [if_pos hgw]
  refine ⟨h1, ?_, ?_⟩
  · rcases h2 : Script.processDatabase cfg net sharp sha stackId stackPages with ⟨ok2, t2⟩
    rcases h3 : Script.processDatabase cfg net sharp sha musicId musicPages with ⟨ok3, t3⟩
    cases ok2 with
    | false => simp [Script.scriptsMain, h1, h2, h3]
    | true => simp [Script.scriptsMain, h1, h2, h3]
  · intro hmu
    unfold Legacy.optimizeMusic
    rw [if_pos hmu]

/-- Claim C9 as stated is refuted on the legacy collection functions: with
the Good-Websites identifier missing, `optimizeGoodWebsites` still issues a
query (carrying the missing identifier); when the content API rejects that
query, the run ends and the remaining collections are never queried —
contrast the final conjunct, where the same run with the identifier present
queries all three collections. -/
theorem goodWebsites_missing_id_aborts :
    Legacy.optimizeGoodWebsites envW netQueryStrict witnessSharp shaW none [] =
      (false, [Effect.notionQuery none]) ∧
    Legacy.legacyMain envW netQueryStrict witnessSharp shaW none (some "st")
      (some "mu") [] [] [] = [Effect.notionQuery none] ∧
    Legacy.legacyMain envW netQueryStrict witnessSharp shaW (some "gw") (some "st")
      (some "mu") [] [] [] =
      [Effect.notionQuery (some "gw"), Effect.notionQuery (some "st"),
       Effect.notionQuery (some "mu")] := by
  exact ⟨by decide, by decide, by decide⟩

/-- Witness for the amended C9 at concrete falsy identifiers. -/
theorem missing_database_id_handling_witness :
    Script.processDatabase cfgW netQueryStrict witnessSharp shaW none [] = (true, []) ∧
    Legacy.optimizeMusic envW netQueryStrict witnessSharp shaW (some "") [] = (true, []) := by
  have h := missing_database_id_handling cfgW envW netQueryStrict witnessSharp shaW
    none (some "st") (some "") [] [] [] [] (by decide)
  exact ⟨h.1, h.2.2 (by decide)⟩
